import Mathlib

/-!
Verification development for the fragscrape repository.

The definitions below are a shallow embedding of the TypeScript sources:

* `src/proxy/proxyManager.ts` (quota classification of proxy sub-users),
* `src/scrapers/HtmlExtractor.ts` (multi-strategy rating extraction),
* `src/scrapers/parfumoScraper.ts` (search ranking and name normalization),
* `src/proxy/BaseProxyClient.ts` (rendered-client page validation),
* `src/proxy/httpClient.ts` and `src/utils/retry.ts` (transport retry logic).

JavaScript strings are modelled as `List Char` / `String`; JavaScript
numbers that are produced by `parseFloat` on digit strings are modelled as
`ℚ`, and results of `parseInt` as `Option ℤ`, where `none` models `NaN`
(so that the JS comparison semantics, in which every comparison with `NaN`
is false, can be expressed).  Case mapping (`toLowerCase`/`toUpperCase`)
is modelled on the ASCII range, which is the range exercised by the data
these routines handle; `\s` of JavaScript regexes is modelled by the ASCII
whitespace characters.
-/

/-! ## JavaScript string primitives -/

/-- ASCII decimal digit, the `\d` character class of a JS regex. -/
def isDigitChar (c : Char) : Bool :=
  '0' ≤ c && c ≤ '9'

/-- Whitespace as matched by the `\s` class and by `String.prototype.trim`
(restricted to the ASCII whitespace characters). -/
def isJsSpace (c : Char) : Bool :=
  c = ' ' || c = '\t' || c = '\n' || c = '\r' || c = '\x0b' || c = '\x0c'

/-- ASCII lower-casing, the model of `String.prototype.toLowerCase`. -/
def asciiLower (c : Char) : Char :=
  if 'A' ≤ c && c ≤ 'Z' then Char.ofNat (c.toNat + 32) else c

/-- ASCII upper-casing, the model of `String.prototype.toUpperCase`. -/
def asciiUpper (c : Char) : Char :=
  if 'a' ≤ c && c ≤ 'z' then Char.ofNat (c.toNat - 32) else c

/-- Case-insensitive character comparison (the `i` regex flag). -/
def ciEqChar (a b : Char) : Bool :=
  asciiLower a = asciiLower b

/-- Case-insensitive list-prefix test. -/
def ciStartsWith : List Char → List Char → Bool
  | [], _ => true
  | _ :: _, [] => false
  | p :: ps, c :: cs => ciEqChar p c && ciStartsWith ps cs

/-- Case-insensitive prefix removal: strips `pat` from the front of the
text, returning the remainder on success. -/
def ciDropPre : List Char → List Char → Option (List Char)
  | [], cs => some cs
  | _ :: _, [] => none
  | p :: ps, c :: cs => if ciEqChar p c then ciDropPre ps cs else none

/-- Case-insensitive equality of two character lists. -/
def ciEqList (a b : List Char) : Bool :=
  a.length = b.length && ciStartsWith a b

/-- Substring containment on character lists. -/
def listContainsSub : List Char → List Char → Bool
  | s, pat =>
    pat.isPrefixOf s ||
      match s with
      | [] => false
      | _ :: t => listContainsSub t pat

/-- `String.prototype.includes`: substring containment. -/
def containsSub (s pat : String) : Bool :=
  listContainsSub s.data pat.data

/-- `String.prototype.startsWith`. -/
def jsStartsWith (s pat : String) : Bool :=
  pat.data.isPrefixOf s.data

/-- `String.prototype.trim` on character lists. -/
def trimChars (l : List Char) : List Char :=
  ((l.dropWhile isJsSpace).reverse.dropWhile isJsSpace).reverse

/-- `String.prototype.trim`. -/
def trimJS (s : String) : String :=
  ⟨trimChars s.data⟩

/-- ASCII lower-casing of a whole string (`toLowerCase`). -/
def lowerStr (s : String) : String :=
  ⟨s.data.map asciiLower⟩

/-- The numeric value of a digit run, as read by `parseInt` on an
all-digit string (or by `parseFloat` for the integer part). -/
def digitsToNat (l : List Char) : ℕ :=
  l.foldl (fun n c => n * 10 + (c.toNat - 48)) 0

/-- `parseInt(s, 10)` on a string that consists purely of decimal digits:
the empty string parses to `NaN`, which is modelled by `none`. -/
def parseIntDigits (l : List Char) : Option ℤ :=
  match l with
  | [] => none
  | _ => some (digitsToNat l)

/-- The rational value denoted by `"<int>.<frac>"`, as computed by
`parseFloat` on such a string (exact, since the fraction is finite). -/
def decimalVal (intPart fracPart : List Char) : ℚ :=
  (digitsToNat intPart : ℚ) + (digitsToNat fracPart : ℚ) / 10 ^ fracPart.length

/-! ## Quota classification (`ProxyManager.checkSubUserUsage`,
`src/proxy/proxyManager.ts` lines 73–110 / `src/proxy/types.ts` 130–167) -/

inductive SubUserStatus
  | active
  | exhausted
  | error
deriving DecidableEq, Repr

structure DecodoSubUser where
  username : String
  status : SubUserStatus
  trafficUsed : ℚ
  trafficLimit : ℚ
deriving DecidableEq, Repr

/-- The `{traffic_used, traffic_limit}` pair returned by
`decodoClient.getSubUserTraffic`, in bytes. -/
structure SubUserTraffic where
  traffic_used : ℚ
  traffic_limit : ℚ
deriving DecidableEq, Repr

/-- The events the manager can `emit` during a usage check. -/
inductive ProxyEvent
  | subuserNearLimit
  | subuserExhausted
  | newSubuserNeeded
deriving DecidableEq, Repr

/-- `ProxyManager.checkSubUserUsage`.  The upstream traffic query is a
parameter; `none` models the `catch` branch (the query threw).  Returns
the updated sub-user record, the boolean result (`true` = near limit or
exhausted or unknown), and the list of emitted events. -/
def checkSubUserUsage (subUser : DecodoSubUser) (traffic : Option SubUserTraffic)
    (warningThresholdMB : ℚ) : DecodoSubUser × Bool × List ProxyEvent :=
  match traffic with
  | none => (subUser, true, [])
  | some t =>
    let subUser1 : DecodoSubUser := { subUser with trafficUsed := t.traffic_used }
    let usedMB : ℚ := t.traffic_used / (1024 * 1024)
    let limitMB : ℚ := t.traffic_limit / (1024 * 1024)
    if usedMB ≥ limitMB then
      ({ subUser1 with status := .exhausted }, true, [.subuserExhausted])
    else if usedMB ≥ warningThresholdMB then
      (subUser1, true, [.subuserNearLimit])
    else
      (subUser1, false, [])

/-- A concrete active sub-user used in concrete evaluations. -/
def subUserA : DecodoSubUser :=
  { username := "subA", status := .active, trafficUsed := 0, trafficLimit := 500 * 1048576 }

/-- **C1, counterexample.**  The claim asserts that whenever
`used < warnThreshold` no notification fires.  With `used = 600 MiB`,
`quota = 500 MiB` and `warnThreshold = 900 MB`, `used` is below the
warning threshold, yet the check classifies the credential as exhausted
and emits the `subuser-exhausted` notification. -/
theorem checkSubUserUsage_below_threshold_notifies :
    (600 * 1048576 : ℚ) < 900 * 1048576 ∧
    (checkSubUserUsage subUserA (some ⟨600 * 1048576, 500 * 1048576⟩) 900).2.2 =
      [ProxyEvent.subuserExhausted] ∧
    (checkSubUserUsage subUserA (some ⟨600 * 1048576, 500 * 1048576⟩) 900).1.status =
      SubUserStatus.exhausted := by
  refine ⟨by norm_num, ?_, ?_⟩ <;> norm_num [checkSubUserUsage, subUserA]

/-- **C1 (amended).**  For a successful quota read:
if `used ≥ quota` the credential becomes Exhausted and the
`subuser-exhausted` notification is emitted; if `warnThreshold ≤ used <
quota` the `subuser-near-limit` notification fires and the status is left
unchanged (so an Active credential remains Active); and if `used <
warnThreshold` **and** `used < quota` no notification fires and the check
reports the credential as usable.  (`warnThreshold` is configured in MB,
hence the `* 1048576` conversions.) -/
theorem checkSubUserUsage_classification (su : DecodoSubUser) (used limit thr : ℚ) :
    (used ≥ limit →
      (checkSubUserUsage su (some ⟨used, limit⟩) thr).1.status = .exhausted ∧
      (checkSubUserUsage su (some ⟨used, limit⟩) thr).2.2 = [.subuserExhausted] ∧
      (checkSubUserUsage su (some ⟨used, limit⟩) thr).2.1 = true) ∧
    (thr * 1048576 ≤ used → used < limit →
      (checkSubUserUsage su (some ⟨used, limit⟩) thr).2.2 = [.subuserNearLimit] ∧
      (checkSubUserUsage su (some ⟨used, limit⟩) thr).1.status = su.status ∧
      (checkSubUserUsage su (some ⟨used, limit⟩) thr).2.1 = true) ∧
    (used < thr * 1048576 → used < limit →
      (checkSubUserUsage su (some ⟨used, limit⟩) thr).2.2 = [] ∧
      (checkSubUserUsage su (some ⟨used, limit⟩) thr).2.1 = false ∧
      (checkSubUserUsage su (some ⟨used, limit⟩) thr).1.trafficUsed = used) := by
  have hpos : (0 : ℚ) < 1024 * 1024 := by norm_num
  have hq : limit / (1024 * 1024) ≤ used / (1024 * 1024) ↔ limit ≤ used :=
    div_le_div_iff_of_pos_right hpos
  have ht : thr ≤ used / (1024 * 1024) ↔ thr * 1048576 ≤ used := by
    rw [le_div_iff₀ hpos]; norm_num
  simp only [checkSubUserUsage, ge_iff_le]
  split_ifs with hA hB
  · exact ⟨fun _ => ⟨rfl, rfl, rfl⟩,
      fun _ h2 => absurd (hq.mp hA) (not_le.mpr h2),
      fun _ h2 => absurd (hq.mp hA) (not_le.mpr h2)⟩
  · exact ⟨fun h => absurd (hq.mpr h) hA,
      fun _ _ => ⟨rfl, rfl, rfl⟩,
      fun h1 _ => absurd (ht.mp hB) (not_le.mpr h1)⟩
  · exact ⟨fun h => absurd (hq.mpr h) hA,
      fun h1 _ => absurd (ht.mpr h1) hB,
      fun _ _ => ⟨rfl, rfl, rfl⟩⟩

/-- Witness for `checkSubUserUsage_classification`: all three cases at
concrete traffic readings. -/
theorem checkSubUserUsage_classification_witness :
    ((checkSubUserUsage subUserA (some ⟨1000 * 1048576, 1000 * 1048576⟩) 900).1.status =
        .exhausted ∧
      (checkSubUserUsage subUserA (some ⟨1000 * 1048576, 1000 * 1048576⟩) 900).2.2 =
        [.subuserExhausted] ∧
      (checkSubUserUsage subUserA (some ⟨1000 * 1048576, 1000 * 1048576⟩) 900).2.1 = true) ∧
    ((checkSubUserUsage subUserA (some ⟨950 * 1048576, 1000 * 1048576⟩) 900).2.2 =
        [.subuserNearLimit] ∧
      (checkSubUserUsage subUserA (some ⟨950 * 1048576, 1000 * 1048576⟩) 900).1.status =
        subUserA.status ∧
      (checkSubUserUsage subUserA (some ⟨950 * 1048576, 1000 * 1048576⟩) 900).2.1 = true) ∧
    ((checkSubUserUsage subUserA (some ⟨100 * 1048576, 1000 * 1048576⟩) 900).2.2 = [] ∧
      (checkSubUserUsage subUserA (some ⟨100 * 1048576, 1000 * 1048576⟩) 900).2.1 = false ∧
      (checkSubUserUsage subUserA (some ⟨100 * 1048576, 1000 * 1048576⟩) 900).1.trafficUsed =
        100 * 1048576) :=
  ⟨(checkSubUserUsage_classification subUserA (1000 * 1048576) (1000 * 1048576) 900).1
      (by norm_num),
    (checkSubUserUsage_classification subUserA (950 * 1048576) (1000 * 1048576) 900).2.1
      (by norm_num) (by norm_num),
    (checkSubUserUsage_classification subUserA (100 * 1048576) (1000 * 1048576) 900).2.2
      (by norm_num) (by norm_num)⟩

/-! ## Rating extraction (`HtmlExtractor`, `src/scrapers/HtmlExtractor.ts`)

The DOM queries of strategy 1 (cheerio selectors) are abstracted: a
`RatingPage` carries a lookup from a `data-type` attribute value to the
trimmed-relevant text of the matching container, plus the full body text
that strategies 2 and 3 run their regexes over.  The regex matching of
strategies 2 and 3 is embedded as explicit leftmost-match scanners whose
backtracking behaviour mirrors the JS engine on the patterns in question;
the label is modelled literally, which is faithful for the labels free of
`-`, whitespace and regex metacharacters that the extractor passes
(`Scent`, `Longevity`, `Sillage`, `Bottle`). -/

/-- A JS number that is known to be an integer or `NaN`; `none` is `NaN`.
Every JS comparison involving `NaN` is false. -/
abbrev JsInt := Option ℤ

/-- `HtmlExtractor.validateRating` (lines 313–327).  The `label` argument
of the source is used only for logging and is omitted.  Note the `NaN`
behaviour: when `count` is `NaN`, both `count <= 0` and
`count > 1000000` are false, so the guard falls through to `true`. -/
def validateRating (value : ℚ) (count : JsInt) : Bool :=
  if value < 0 ∨ value > 10 then false
  else
    match count with
    | some c => if c ≤ 0 ∨ c > 1000000 then false else true
    | none => true

/-- The contents of the rating container selected by
`$('[data-type="..."]')`: the text of the value span and of the count
span. -/
structure RatingContainer where
  valueText : String
  countText : String

/-- The abstraction of a loaded cheerio page used by the rating
extractor. -/
structure RatingPage where
  containerOf : String → Option RatingContainer
  bodyText : String

/-- Removal of the literal sequence `(?:`, the model of
`.replace(/\(\?:/g, '')`. -/
def stripParenQ : List Char → List Char
  | '(' :: '?' :: ':' :: rest => stripParenQ rest
  | c :: rest => c :: stripParenQ rest
  | [] => []

/-- The `labelToDataType` map of `extractRatingFromDOM`. -/
def labelToDataType : List (String × String) :=
  [("longevity", "durability"), ("sillage", "sillage"), ("bottle", "bottle"),
    ("pricing", "pricing"), ("value for money", "pricing"),
    ("price-value", "pricing"), ("price value", "pricing")]

/-- The `normalizedLabel` computation of `extractRatingFromDOM`
(lines 176–184): lower-case, drop `(?:`, `|`→space, drop `[`/`]`/`\`,
`-`→space, trim, first word. -/
def normalizeLabel (label : String) : String :=
  let l1 := label.data.map asciiLower
  let l2 := stripParenQ l1
  let l3 := l2.map fun c => if c = '|' then ' ' else c
  let l4 := l3.filter fun c => c ≠ '[' && c ≠ ']' && c ≠ '\\'
  let l5 := l4.map fun c => if c = '-' then ' ' else c
  let l6 := trimChars l5
  ⟨l6.takeWhile fun c => c ≠ ' '⟩

/-- `parseFloat` on a trimmed piece of text: optional sign, integer
digits, optional fraction.  `none` models `NaN` (no digits at all);
exponent notation does not occur in the inputs this models. -/
def parseFloatJS (s : String) : Option ℚ :=
  let l := s.data.dropWhile isJsSpace
  let signed : ℚ × List Char :=
    match l with
    | '-' :: t => (-1, t)
    | '+' :: t => (1, t)
    | _ => (1, l)
  let ints := signed.2.takeWhile isDigitChar
  let rest := signed.2.dropWhile isDigitChar
  let fracs :=
    match rest with
    | '.' :: t => t.takeWhile isDigitChar
    | _ => []
  if ints.isEmpty && fracs.isEmpty then none
  else some (signed.1 * decimalVal ints fracs)

/-- The tail `\s*Ratings?` of the rating regexes: after greedily skipping
whitespace the text must continue with `Rating` (case-insensitively). -/
def ratingWordAfter (rest : List Char) : Bool :=
  ciStartsWith "rating".data (rest.dropWhile isJsSpace)

/-- Dropping a prefix cannot lengthen a list (termination helper). -/
theorem dropWhileLengthLe (p : Char → Bool) (l : List Char) :
    (l.dropWhile p).length ≤ l.length := by
  induction l with
  | nil => simp [List.dropWhile]
  | cons c rest ih =>
    simp only [List.dropWhile]
    split
    · exact ih.trans (Nat.le_succ _)
    · exact le_refl _

/-- Leftmost match of `(\d+)\s*Ratings?` (the count regex of the DOM
strategy): the first maximal digit run followed, after whitespace, by
`Rating`. -/
def findCountMatch : List Char → Option (List Char)
  | [] => none
  | c :: rest =>
    if isDigitChar c then
      let run := c :: rest.takeWhile isDigitChar
      let after := rest.dropWhile isDigitChar
      if ratingWordAfter after then some run
      else findCountMatch after
    else findCountMatch rest
termination_by l => l.length
decreasing_by
  all_goals simp only [List.length_cons, Nat.lt_succ_iff]
  · exact dropWhileLengthLe _ _
  · exact Nat.le_refl _

/-- `HtmlExtractor.extractRatingFromDOM` (lines 162–227), with the
cheerio container query abstracted by `page.containerOf`. -/
def extractRatingFromDOM (page : RatingPage) (label : String) : Option (ℚ × JsInt) :=
  match (labelToDataType.find? fun p => p.1 = normalizeLabel label).map Prod.snd with
  | none => none
  | some dataType =>
    match page.containerOf dataType with
    | none => none
    | some container =>
      let valueText := trimJS container.valueText
      if valueText = "" then none
      else
        match parseFloatJS valueText with
        | none => none
        | some value =>
          let countText := trimJS container.countText
          match findCountMatch countText.data with
          | none => none
          | some run =>
            let count : JsInt := some (digitsToNat run : ℤ)
            if validateRating value count then some (value, count) else none

/-- The `([\d,]+)\s*Ratings?` tail of the separated pattern at a fixed
position: the greedy `[\d,]+` capture can only succeed on the full
maximal digit-or-comma run (a shorter capture leaves a digit or comma
where `\s*R` must match), so the capture is that run, subject to the
`Ratings` tail test. -/
def sepCountAt (rest : List Char) : Option (List Char) :=
  let cs := rest.takeWhile fun c => isDigitChar c || c = ','
  match cs with
  | [] => none
  | _ => if ratingWordAfter (rest.drop cs.length) then some cs else none

/-- Backtracking of the greedy `[^\d]{2,}` of the separated pattern:
lengths are tried from the maximal non-digit run length down to 2. -/
def sepCountLoop (rest : List Char) : ℕ → Option (List Char)
  | 0 => none
  | 1 => none
  | len + 2 =>
    match sepCountAt (rest.drop (len + 2)) with
    | some cs => some cs
    | none => sepCountLoop rest (len + 1)

/-- Fraction digits (`\d{1,2}`, greedy) of the separated pattern's
group 1, then the `[^\d]{2,}` separator and the group-2 capture. -/
def sepAfterDot (ints r3 : List Char) : Option ((List Char × List Char) × List Char) :=
  match r3 with
  | [] => none
  | f1 :: rest3 =>
    if isDigitChar f1 then
      let frac : List Char × List Char :=
        match rest3 with
        | f2 :: rest4 => if isDigitChar f2 then ([f1, f2], rest4) else ([f1], rest3)
        | [] => ([f1], rest3)
      let rest4 := frac.2
      let run := rest4.takeWhile fun c => !isDigitChar c
      match sepCountLoop rest4 run.length with
      | some cs => some ((ints, frac.1), cs)
      | none => none
    else none

/-- One anchor position of the separated pattern
`label[^\d]+(\d{1,2}\.\d{1,2})[^\d]{2,}([\d,]+)\s*Ratings?`: returns the
captured (integer digits, fraction digits) of group 1 and the raw
digit-or-comma capture of group 2. -/
def sepTryAt (label s : List Char) : Option ((List Char × List Char) × List Char) :=
  match ciDropPre label s with
  | none => none
  | some r1 =>
    match r1 with
    | [] => none
    | c0 :: _ =>
      if isDigitChar c0 then none
      else
        match r1.dropWhile (fun c => !isDigitChar c) with
        | [] => none
        | c1 :: rest =>
          match rest with
          | [] => none
          | c2 :: rest2 =>
            if isDigitChar c2 then
              match rest2 with
              | '.' :: r3 => sepAfterDot [c1, c2] r3
              | _ => none
            else if c2 = '.' then sepAfterDot [c1] rest2
            else none

/-- Leftmost-match scan of the separated pattern over the page text. -/
def sepFind (label : List Char) : List Char → Option ((List Char × List Char) × List Char)
  | [] => none
  | c :: rest =>
    match sepTryAt label (c :: rest) with
    | some g => some g
    | none => sepFind label rest

/-- `HtmlExtractor.extractRatingSeparated` (lines 232–253). -/
def extractRatingSeparated (pageText label : String) : Option (ℚ × JsInt) :=
  match sepFind label.data pageText.data with
  | none => none
  | some ((ints, frac), cs) =>
    let value := decimalVal ints frac
    let count := parseIntDigits (cs.filter fun c => c ≠ ',')
    if validateRating value count then some (value, count) else none

/-- The lazy `(\d+?)` of the concatenated pattern followed by
`\s*Ratings?`: digits are consumed one at a time, checking the tail after
each. -/
def lazyDigits (acc : List Char) : List Char → Option (List Char)
  | [] => none
  | c :: rest =>
    if isDigitChar c then
      if ratingWordAfter rest then some (c :: acc).reverse
      else lazyDigits (c :: acc) rest
    else none

/-- One anchor position of the concatenated pattern
`label[^\d]*(\d{1,2})\.(\d+?)\s*Ratings?`: returns the captured integer
digits and decimal-digit run. -/
def concatTryAt (label s : List Char) : Option (List Char × List Char) :=
  match ciDropPre label s with
  | none => none
  | some r1 =>
    match r1.dropWhile (fun c => !isDigitChar c) with
    | [] => none
    | c1 :: rest =>
      match rest with
      | [] => none
      | c2 :: rest2 =>
        if isDigitChar c2 then
          match rest2 with
          | '.' :: r4 => (lazyDigits [] r4).map fun ds => ([c1, c2], ds)
          | _ => none
        else if c2 = '.' then (lazyDigits [] rest2).map fun ds => ([c1], ds)
        else none

/-- Leftmost-match scan of the concatenated pattern over the page text. -/
def concatFind (label : List Char) : List Char → Option (List Char × List Char)
  | [] => none
  | c :: rest =>
    match concatTryAt label (c :: rest) with
    | some g => some g
    | none => concatFind label rest

/-- The digit-count splitting heuristic of
`HtmlExtractor.extractRatingConcatenated` (lines 265–304), applied to the
two captured groups.  The validation gate is part of each branch, as in
the source. -/
def splitConcat (integerPart decimalDigits : List Char) : Option (ℚ × JsInt) :=
  if decimalDigits.length ≥ 5 then
    if decimalDigits.length = 5 then
      let potentialCount : ℤ := digitsToNat (decimalDigits.drop 1)
      if potentialCount ≥ 1000 then
        let value := decimalVal integerPart (decimalDigits.take 1)
        if validateRating value (some potentialCount) then some (value, some potentialCount)
        else none
      else
        let value := decimalVal integerPart (decimalDigits.take 2)
        let count : ℤ := digitsToNat (decimalDigits.drop 2)
        if validateRating value (some count) then some (value, some count) else none
    else
      let value := decimalVal integerPart (decimalDigits.take 2)
      let count : ℤ := digitsToNat (decimalDigits.drop 2)
      if validateRating value (some count) then some (value, some count) else none
  else if decimalDigits.length = 4 then
    let value := decimalVal integerPart (decimalDigits.take 1)
    let count : ℤ := digitsToNat (decimalDigits.drop 1)
    if validateRating value (some count) then some (value, some count) else none
  else none

/-- `HtmlExtractor.extractRatingConcatenated` (lines 258–308). -/
def extractRatingConcatenated (pageText label : String) : Option (ℚ × JsInt) :=
  match concatFind label.data pageText.data with
  | none => none
  | some (integerPart, decimalDigits) => splitConcat integerPart decimalDigits

/-- `HtmlExtractor.extractRatingMetric` (lines 126–156): the ordered
strategy chain, first non-null result wins. -/
def extractRatingMetric (page : RatingPage) (label : String) : Option (ℚ × JsInt) :=
  match extractRatingFromDOM page label with
  | some domResult => some domResult
  | none =>
    match extractRatingSeparated page.bodyText label with
    | some separatedResult => some separatedResult
    | none => extractRatingConcatenated page.bodyText label

/-- A numeric count accepted by the validation gate lies in
`[1, 1000000]`, and the value in `[0, 10]`. -/
theorem validateRating_bounds (v : ℚ) (c : ℤ) (h : validateRating v (some c) = true) :
    0 ≤ v ∧ v ≤ 10 ∧ 1 ≤ c ∧ c ≤ 1000000 := by
  simp only [validateRating] at h
  split_ifs at h with h1 h2
  push_neg at h1 h2
  exact ⟨h1.1, h1.2, by omega, by omega⟩

/-- The page of the `NaN`-count failing input: no rating containers in
the DOM, and a body text in which the separated pattern's `[\d,]+` count
capture matches a bare comma. -/
def pageNaN : RatingPage :=
  ⟨fun _ => none, "Longevity 6.1 ,,Ratings"⟩

/-- **C2, failing evaluation.**  On the body text
`"Longevity 6.1 ,,Ratings"` the separated strategy's count capture is
`","`; stripping commas and parsing yields `NaN`, which passes
`validateRating` (both `count <= 0` and `count > 1000000` are false for
`NaN`), so the extractor returns a pair whose count is *not* in
`[1, 1000000]`, contradicting the claimed invariant. -/
theorem extractRatingMetric_nan_count :
    extractRatingMetric pageNaN "Longevity" = some (61 / 10, none) ∧
    validateRating (61 / 10) none = true := by
  have hdom : extractRatingFromDOM pageNaN "Longevity" = none := by decide
  have hsep : sepFind "Longevity".data pageNaN.bodyText.data =
      some ((['6'], ['1']), [',']) := by decide
  have hval : decimalVal ['6'] ['1'] = 61 / 10 := by
    have h6 : digitsToNat ['6'] = 6 := by decide
    have h1 : digitsToNat ['1'] = 1 := by decide
    simp only [decimalVal, h6, h1, List.length_singleton]
    norm_num
  have hfilter : parseIntDigits (List.filter (fun c => c ≠ ',') [',']) = none := by decide
  constructor
  · simp only [extractRatingMetric, hdom, extractRatingSeparated, hsep, hfilter, hval]
    norm_num [validateRating]
  · norm_num [validateRating]

/-- The page of the concatenated-parse scenario. -/
def pageConcat : RatingPage :=
  ⟨fun _ => none, "Longevity 6.9406 Ratings"⟩

/-- **C3.**  The concatenated strategy's digit-count heuristic:
the scenario `"Longevity 6.9406 Ratings"` extracts value `6.9` and count
`406` through the full strategy chain; and whenever the split routine
accepts a captured digit run, the accepted pair is the mandated split —
`1` decimal + `3`-digit count for `4` trailing digits; for `5` trailing
digits, `1` decimal + `4`-digit count exactly when the implied count is
at least `1000`, else `2` decimals + `3`-digit count; and `2` decimals
plus the remaining digits for `6` or more. -/
theorem extractRatingConcatenated_heuristic :
    extractRatingMetric pageConcat "Longevity" = some (69 / 10, some 406) ∧
    (∀ ip ds v c, ds.length = 4 → splitConcat ip ds = some (v, c) →
      v = decimalVal ip (ds.take 1) ∧ c = some (digitsToNat (ds.drop 1) : ℤ)) ∧
    (∀ ip ds v c, ds.length = 5 → 1000 ≤ digitsToNat (ds.drop 1) →
      splitConcat ip ds = some (v, c) →
      v = decimalVal ip (ds.take 1) ∧ c = some (digitsToNat (ds.drop 1) : ℤ)) ∧
    (∀ ip ds v c, ds.length = 5 → digitsToNat (ds.drop 1) < 1000 →
      splitConcat ip ds = some (v, c) →
      v = decimalVal ip (ds.take 2) ∧ c = some (digitsToNat (ds.drop 2) : ℤ)) ∧
    (∀ ip ds v c, 6 ≤ ds.length → splitConcat ip ds = some (v, c) →
      v = decimalVal ip (ds.take 2) ∧ c = some (digitsToNat (ds.drop 2) : ℤ)) := by
  refine ⟨?_, ?_, ?_, ?_, ?_⟩
  · have hdom : extractRatingFromDOM pageConcat "Longevity" = none := by decide
    have hsep : extractRatingSeparated pageConcat.bodyText "Longevity" = none := by
      have : sepFind "Longevity".data pageConcat.bodyText.data = none := by decide
      simp [extractRatingSeparated, this]
    have hfind : concatFind "Longevity".data pageConcat.bodyText.data =
        some (['6'], ['9', '4', '0', '6']) := by decide
    have hval : decimalVal ['6'] ['9'] = 69 / 10 := by
      have h6 : digitsToNat ['6'] = 6 := by decide
      have h9 : digitsToNat ['9'] = 9 := by decide
      simp only [decimalVal, h6, h9, List.length_singleton]
      norm_num
    have hcnt : digitsToNat ['4', '0', '6'] = 406 := by decide
    simp only [extractRatingMetric, hdom, hsep, extractRatingConcatenated, hfind,
      splitConcat, List.length_cons, List.length_nil]
    norm_num [hval, hcnt, validateRating]
  · intro ip ds v c h4 hsome
    rw [splitConcat, h4] at hsome
    norm_num at hsome
    exact ⟨hsome.2.1.symm, by rw [List.drop_one]; exact hsome.2.2.symm⟩
  · intro ip ds v c h5 hcount hsome
    rw [splitConcat, h5] at hsome
    norm_num at hsome
    have hc' : 1000 ≤ digitsToNat ds.tail := by
      rw [← List.drop_one]; exact hcount
    rw [if_pos hc'] at hsome
    split_ifs at hsome
    simp only [Option.some.injEq, Prod.mk.injEq] at hsome
    exact ⟨hsome.1.symm, by rw [List.drop_one]; exact hsome.2.symm⟩
  · intro ip ds v c h5 hcount hsome
    rw [splitConcat, h5] at hsome
    norm_num at hsome
    have hc' : digitsToNat ds.tail < 1000 := by
      rw [← List.drop_one]; exact hcount
    rw [if_neg (not_le.mpr hc')] at hsome
    split_ifs at hsome
    simp only [Option.some.injEq, Prod.mk.injEq] at hsome
    exact ⟨hsome.1.symm, hsome.2.symm⟩
  · intro ip ds v c h6 hsome
    simp only [splitConcat] at hsome
    rw [if_pos (show ds.length ≥ 5 by omega), if_neg (show ¬ds.length = 5 by omega)]
      at hsome
    split_ifs at hsome
    simp only [Option.some.injEq, Prod.mk.injEq] at hsome
    exact ⟨hsome.1.symm, hsome.2.symm⟩

/-- Witness for `extractRatingConcatenated_heuristic`: each splitting
case applied at a concrete captured digit run. -/
theorem extractRatingConcatenated_heuristic_witness :
    ((69 : ℚ) / 10 = decimalVal ['6'] (['9', '4', '0', '6'].take 1) ∧
      (some 406 : JsInt) = some (digitsToNat (['9', '4', '0', '6'].drop 1) : ℤ)) ∧
    ((69 : ℚ) / 10 = decimalVal ['6'] (['9', '1', '2', '3', '4'].take 1) ∧
      (some 1234 : JsInt) = some (digitsToNat (['9', '1', '2', '3', '4'].drop 1) : ℤ)) ∧
    ((69 : ℚ) / 10 = decimalVal ['6'] (['9', '0', '1', '2', '3'].take 2) ∧
      (some 123 : JsInt) = some (digitsToNat (['9', '0', '1', '2', '3'].drop 2) : ℤ)) ∧
    ((69 : ℚ) / 10 = decimalVal ['6'] (['9', '0', '1', '2', '3', '4'].take 2) ∧
      (some 1234 : JsInt) = some (digitsToNat (['9', '0', '1', '2', '3', '4'].drop 2) : ℤ)) := by
  have e4 : splitConcat ['6'] ['9', '4', '0', '6'] = some (69 / 10, some 406) := by
    have d1 : digitsToNat ['6'] = 6 := by decide
    have d2 : digitsToNat ['9'] = 9 := by decide
    have d3 : digitsToNat ['4', '0', '6'] = 406 := by decide
    simp only [splitConcat, List.length_cons, List.length_nil]
    norm_num [decimalVal, d1, d2, d3, validateRating]
  have e5a : splitConcat ['6'] ['9', '1', '2', '3', '4'] = some (69 / 10, some 1234) := by
    have d1 : digitsToNat ['6'] = 6 := by decide
    have d2 : digitsToNat ['9'] = 9 := by decide
    have d3 : digitsToNat ['1', '2', '3', '4'] = 1234 := by decide
    simp only [splitConcat, List.length_cons, List.length_nil]
    norm_num [decimalVal, d1, d2, d3, validateRating]
  have e5b : splitConcat ['6'] ['9', '0', '1', '2', '3'] = some (69 / 10, some 123) := by
    have d1 : digitsToNat ['6'] = 6 := by decide
    have d2 : digitsToNat ['9', '0'] = 90 := by decide
    have d3 : digitsToNat ['0', '1', '2', '3'] = 123 := by decide
    have d4 : digitsToNat ['1', '2', '3'] = 123 := by decide
    simp only [splitConcat, List.length_cons, List.length_nil]
    norm_num [decimalVal, d1, d2, d3, d4, validateRating]
  have e6 : splitConcat ['6'] ['9', '0', '1', '2', '3', '4'] = some (69 / 10, some 1234) := by
    have d1 : digitsToNat ['6'] = 6 := by decide
    have d2 : digitsToNat ['9', '0'] = 90 := by decide
    have d3 : digitsToNat ['1', '2', '3', '4'] = 1234 := by decide
    simp only [splitConcat, List.length_cons, List.length_nil]
    norm_num [decimalVal, d1, d2, d3, validateRating]
  exact ⟨extractRatingConcatenated_heuristic.2.1 _ _ _ _ (by decide) e4,
    extractRatingConcatenated_heuristic.2.2.1 _ _ _ _ (by decide) (by decide) e5a,
    extractRatingConcatenated_heuristic.2.2.2.1 _ _ _ _ (by decide) (by decide) e5b,
    extractRatingConcatenated_heuristic.2.2.2.2 _ _ _ _ (by decide) e6⟩

/-! ## Rendered-client page validation (`BrowserClient`,
`src/proxy/BaseProxyClient.ts` lines 165–219 and 224–318)

The cheerio extraction of the `og:url` meta tag is abstracted to an
`Option String` input of `validatePageContent`; everything after that
extraction is embedded from the source.  The source wraps the whole
routine in a `try/catch` that returns `isValid = true` on an exception;
the embedding is total, so that branch has no counterpart. -/

/-- The `.replace(/_\d{4}$/, '')` step of `extractBrandAndName`:
strips a trailing underscore-plus-four-digits suffix. -/
def stripYearSuffixURL (s : List Char) : List Char :=
  match s.reverse with
  | d4 :: d3 :: d2 :: d1 :: '_' :: rest =>
    if isDigitChar d4 && isDigitChar d3 && isDigitChar d2 && isDigitChar d1 then rest.reverse
    else s
  | _ => s

/-- `String.prototype.split` with a single-character separator: splits
at every occurrence, keeping empty pieces. -/
def splitOnChar (sep : Char) : List Char → List (List Char)
  | [] => [[]]
  | c :: rest =>
    let r := splitOnChar sep rest
    if c = sep then [] :: r
    else
      match r with
      | [] => [[c]]
      | w :: ws => (c :: w) :: ws

/-- The `extractBrandAndName` closure of
`BrowserClient.validatePageContent` (lines 178–192): URL format
`/Perfumes/Brand_Name/perfume_name`, brand at split index 4 and name at
index 5. -/
def extractBrandAndName (urlStr : String) : Option (String × String) :=
  let urlParts := splitOnChar '/' urlStr.data
  if urlParts.length < 6 then none
  else
    let brand :=
      trimChars (((urlParts.getD 4 []).map fun c => if c = '_' then ' ' else c).map
        asciiLower)
    let nameWithYear := urlParts.getD 5 []
    let name :=
      trimChars (((stripYearSuffixURL nameWithYear).map fun c =>
        if c = '_' then ' ' else c).map asciiLower)
    some (⟨brand⟩, ⟨name⟩)

/-- The result record of `validatePageContent` (`message` omitted — it
is only logged). -/
structure PageValidation where
  isValid : Bool
  actualUrl : Option String
deriving DecidableEq, Repr

/-- `BrowserClient.validatePageContent` with the `og:url` meta value
already extracted from the page markup. -/
def validatePageContent (ogUrl : Option String) (requestedUrl : String) : PageValidation :=
  match ogUrl with
  | none => ⟨true, none⟩
  | some og =>
    match extractBrandAndName requestedUrl, extractBrandAndName og with
    | some requested, some actual =>
      if requested = actual then ⟨true, none⟩
      else ⟨false, some og⟩
    | some _, none => ⟨true, none⟩
    | none, _ => ⟨true, none⟩

/-- **C10.**  The guard fails a page exactly when an `og:url` is present,
both URLs parse to a brand/name identity, and the identities differ; in
every other situation (`og:url` absent, either URL unparseable) it
reports the page as valid. -/
theorem validatePageContent_fails_iff_mismatch (ogUrl : Option String) (requestedUrl : String) :
    (validatePageContent ogUrl requestedUrl).isValid = false ↔
      ∃ og requested actual, ogUrl = some og ∧
        extractBrandAndName requestedUrl = some requested ∧
        extractBrandAndName og = some actual ∧ requested ≠ actual := by
  cases ogUrl with
  | none => simp [validatePageContent]
  | some og =>
    simp only [validatePageContent]
    cases hr : extractBrandAndName requestedUrl with
    | none => simp [hr]
    | some requested =>
      cases ha : extractBrandAndName og with
      | none => simp [hr, ha]
      | some actual =>
        by_cases heq : requested = actual <;> simp [hr, ha, heq]
        exact ⟨actual.1, actual.2, by simp, by simpa using heq⟩

/-- Witness for `validatePageContent_fails_iff_mismatch`: the
Creed/Aventus versus Dior/Sauvage scenario fails validation. -/
theorem validatePageContent_fails_iff_mismatch_witness :
    (validatePageContent (some "https://www.parfumo.com/Perfumes/Dior/Sauvage")
        "https://www.parfumo.com/Perfumes/Creed/Aventus").isValid = false :=
  (validatePageContent_fails_iff_mismatch _ _).mpr
    ⟨"https://www.parfumo.com/Perfumes/Dior/Sauvage", ("creed", "aventus"),
      ("dior", "sauvage"), rfl, by decide, by decide, by decide⟩

/-- The mutable state of a `BrowserClient`: whether a browser and a page
are alive, and the sticky-session id. -/
structure BrowserState where
  browserLive : Bool
  pageLive : Bool
  sessionId : Option String
deriving DecidableEq, Repr

/-- `BrowserClient.reset` (lines 323–341): page and browser closed,
session id cleared, so the next call builds a fresh context. -/
def browserReset : BrowserState := ⟨false, false, none⟩

/-- `getBrowser`/`getPage` (lines 76–159): (re)build the context,
keeping an existing session id and otherwise minting a fresh one. -/
def getPageState (st : BrowserState) (freshId : String) : BrowserState :=
  ⟨true, true, some (st.sessionId.getD freshId)⟩

/-- The pieces of a rendered page the fetch routine inspects: the title
and the `og:url` meta value. -/
structure HtmlDoc where
  title : String
  ogUrl : Option String
deriving DecidableEq, Repr

/-- The `ScraperError`s thrown by `getPageContent`; `pageMismatch`
carries `error.code = 'PAGE_MISMATCH'`. -/
inductive ScrapeErr
  | cloudflareFail (url : String)
  | pageMismatch (url : String)
deriving DecidableEq, Repr

/-- The `code` property of the thrown error: set only for the mismatch
case (line 288). -/
def scrapeErrCode : ScrapeErr → Option String
  | .pageMismatch _ => some "PAGE_MISMATCH"
  | .cloudflareFail _ => none

/-- The Cloudflare interstitial heuristic (lines 256 and 272). -/
def isChallengeTitle (title : String) : Bool :=
  containsSub title "Just a moment" || containsSub title "Attention Required"

/-- The perfume-URL validation guard of `getPageContent` (lines 279–291
and 297–309): on mismatch, reset the whole browser and throw the
`PAGE_MISMATCH` scraper error. -/
def validateGuard (st1 : BrowserState) (url : String) (doc : HtmlDoc) :
    BrowserState × Except ScrapeErr HtmlDoc :=
  if containsSub url "/Perfumes/" then
    if (validatePageContent doc.ogUrl url).isValid then (st1, .ok doc)
    else (browserReset, .error (.pageMismatch url))
  else (st1, .ok doc)

/-- One attempt of `BrowserClient.getPageContent` (lines 224–318): `doc`
is the page as first rendered, `resolved` the page after the
Cloudflare-challenge wait (consulted only when the first title is a
challenge). -/
def getPageContentAttempt (st : BrowserState) (url freshId : String)
    (doc resolved : HtmlDoc) : BrowserState × Except ScrapeErr HtmlDoc :=
  let st1 := getPageState st freshId
  if isChallengeTitle doc.title then
    if isChallengeTitle resolved.title then (st1, .error (.cloudflareFail url))
    else validateGuard st1 url resolved
  else validateGuard st1 url doc

/-! ## Retry with backoff (`src/utils/retry.ts`) and the HTTP client
(`HttpClient`, `src/proxy/httpClient.ts`) -/

/-- The properties of a thrown JS error that the retry util inspects:
the `code` property and `response?.status`.  `none` models `undefined`. -/
structure JsError where
  code : Option String
  status : Option ℕ
deriving DecidableEq, Repr

/-- The `retryableErrors` of `DEFAULT_OPTIONS` in `retry.ts`. -/
def defaultRetryableErrors : List String :=
  ["ECONNRESET", "ETIMEDOUT", "ENOTFOUND", "ECONNREFUSED", "ENETUNREACH", "EAI_AGAIN"]

/-- `isRetryableError` of `retry.ts` (lines 85–92), also the inline
classification of `retryWithBackoff` (lines 53–57).  `error.code && ...`
is JS truthiness: `undefined` and the empty string are falsy. -/
def isRetryableError (error : JsError) (retryableErrors : List String) : Bool :=
  (match error.code with
    | some c => !(c = "") && retryableErrors.contains c
    | none => false) ||
    error.status == some 429 || error.status == some 503 || error.status == some 502

/-- The numeric retry options (`maxRetries`, `initialDelay`, `maxDelay`,
`backoffMultiplier`, `retryableErrors`). -/
structure RetryConfig where
  maxRetries : ℕ
  initialDelay : ℕ
  maxDelay : ℕ
  backoffMultiplier : ℕ
  retryableErrors : List String
deriving DecidableEq, Repr

/-- `DEFAULT_OPTIONS` of `retry.ts`. -/
def defaultRetryOptions : RetryConfig :=
  ⟨3, 1000, 10000, 2, defaultRetryableErrors⟩

/-- The loop body of `retryWithBackoff`: `attempts i` is the outcome of
the `i`-th invocation of `fn`; returns the overall outcome, the number
of invocations performed, and the list of backoff delays slept. -/
def retryGo (attempts : ℕ → Except JsError α) (cfg : RetryConfig) :
    ℕ → ℕ → ℕ → Except JsError α × ℕ × List ℕ
  | i, delay, remaining =>
    match attempts i with
    | .ok a => (.ok a, 1, [])
    | .error e =>
      match remaining with
      | 0 => (.error e, 1, [])
      | r + 1 =>
        if isRetryableError e cfg.retryableErrors then
          let next :=
            retryGo attempts cfg (i + 1) (min (delay * cfg.backoffMultiplier) cfg.maxDelay) r
          (next.1, next.2.1 + 1, delay :: next.2.2)
        else (.error e, 1, [])

/-- `retryWithBackoff` of `retry.ts` (lines 32–80): up to
`maxRetries + 1` invocations, doubling the delay up to `maxDelay`,
stopping immediately on a non-retryable error and rethrowing the last
error when attempts are exhausted. -/
def retryWithBackoff (attempts : ℕ → Except JsError α) (cfg : RetryConfig) :
    Except JsError α × ℕ × List ℕ :=
  retryGo attempts cfg 0 cfg.initialDelay cfg.maxRetries

/-- **C4.**  When a perfume URL's rendered page fails the brand/name
validation, the fetch attempt resets the whole execution context
(browser, page, session id) and throws the `PAGE_MISMATCH` scraper
error — on the plain path and on the post-challenge path alike; the
error is distinguishable by its code, and the retry wrapper classifies
it as non-retryable, so it propagates to the caller. -/
theorem getPageContent_mismatch_resets (st : BrowserState) (url freshId : String)
    (doc resolved : HtmlDoc) :
    (containsSub url "/Perfumes/" = true →
      (validatePageContent doc.ogUrl url).isValid = false →
      isChallengeTitle doc.title = false →
      getPageContentAttempt st url freshId doc resolved =
        (browserReset, .error (.pageMismatch url))) ∧
    (containsSub url "/Perfumes/" = true →
      (validatePageContent resolved.ogUrl url).isValid = false →
      isChallengeTitle doc.title = true →
      isChallengeTitle resolved.title = false →
      getPageContentAttempt st url freshId doc resolved =
        (browserReset, .error (.pageMismatch url))) ∧
    scrapeErrCode (.pageMismatch url) = some "PAGE_MISMATCH" ∧
    isRetryableError ⟨scrapeErrCode (.pageMismatch url), none⟩ defaultRetryableErrors = false ∧
    browserReset.browserLive = false ∧ browserReset.pageLive = false ∧
    browserReset.sessionId = none := by
  refine ⟨?_, ?_, rfl, rfl, rfl, rfl, rfl⟩
  · intro hurl hval hch
    simp [getPageContentAttempt, validateGuard, hurl, hval, hch]
  · intro hurl hval hch hres
    simp [getPageContentAttempt, validateGuard, hurl, hval, hch, hres]

/-- Witness for `getPageContent_mismatch_resets`: the Creed/Aventus
request rendered as a Dior/Sauvage page is failed and the context
reset. -/
theorem getPageContent_mismatch_resets_witness :
    getPageContentAttempt ⟨true, true, some "sess"⟩
        "https://www.parfumo.com/Perfumes/Creed/Aventus" "fresh"
        ⟨"Aventus - Creed", some "https://www.parfumo.com/Perfumes/Dior/Sauvage"⟩
        ⟨"", none⟩ =
      (browserReset, .error (.pageMismatch "https://www.parfumo.com/Perfumes/Creed/Aventus")) :=
  (getPageContent_mismatch_resets ⟨true, true, some "sess"⟩
      "https://www.parfumo.com/Perfumes/Creed/Aventus" "fresh"
      ⟨"Aventus - Creed", some "https://www.parfumo.com/Perfumes/Dior/Sauvage"⟩
      ⟨"", none⟩).1 (by decide) (by decide) (by decide)

/-- The `AppError` subclasses `HttpClient.get` can throw: a
`RateLimitError` or a `ProxyError` wrapping the original failure. -/
inductive AppErr
  | rateLimitError
  | proxyError (original : JsError)
deriving DecidableEq, Repr

/-- The `statusCode` each `AppError` subclass is constructed with
(`errorHandler.ts`): 429 for `RateLimitError`, 503 for `ProxyError`. -/
def appStatusCode : AppErr → ℕ
  | .rateLimitError => 429
  | .proxyError _ => 503

/-- An `AppError` as seen by the retry util: it has neither a `code`
property nor an axios `response`. -/
def jsErrorOfApp : AppErr → JsError :=
  fun _ => ⟨none, none⟩

/-- The mutable state of `HttpClient`: whether an axios instance is
cached, and the sticky-session id. -/
structure HttpState where
  axiosInstance : Bool
  sessionId : Option String
deriving DecidableEq, Repr

/-- `HttpClient.reset` (lines 73–78): drop the axios instance and the
session id. -/
def httpReset : HttpState := ⟨false, none⟩

/-- `getAxiosInstance`/`createAxiosInstance` (lines 23–68): reuse the
cached instance, otherwise mint a session id (if absent) and build
one. -/
def getAxiosInstance (st : HttpState) (freshId : String) : HttpState :=
  if st.axiosInstance then st else ⟨true, some (st.sessionId.getD freshId)⟩

/-- One attempt of `HttpClient.get` (lines 83–103): `response` is the
outcome of `client.get(url)`.  A 403 resets the client and throws
`RateLimitError`; any other failure is wrapped in a `ProxyError`. -/
def httpGetAttempt (st : HttpState) (freshId : String)
    (response : Except JsError String) : HttpState × Except AppErr String :=
  let st1 := getAxiosInstance st freshId
  match response with
  | .ok data => (st1, .ok data)
  | .error e =>
    if e.status = some 403 then (httpReset, .error .rateLimitError)
    else (st1, .error (.proxyError e))

/-- `HttpClient.get` in full: `retryWithBackoff` (default options)
around `httpGetAttempt`, threading the client state; returns the final
state, the outcome, and the number of attempts performed. -/
def httpGetGo (responses : ℕ → Except JsError String) (freshIds : ℕ → String) :
    HttpState → ℕ → ℕ → HttpState × Except AppErr String × ℕ
  | st, i, remaining =>
    match httpGetAttempt st (freshIds i) (responses i) with
    | (st1, .ok d) => (st1, .ok d, 1)
    | (st1, .error e) =>
      match remaining with
      | 0 => (st1, .error e, 1)
      | r + 1 =>
        if isRetryableError (jsErrorOfApp e) defaultRetryableErrors then
          let next := httpGetGo responses freshIds st1 (i + 1) r
          (next.1, next.2.1, next.2.2 + 1)
        else (st1, .error e, 1)

/-- `HttpClient.get` with the default retry options. -/
def httpGet (responses : ℕ → Except JsError String) (freshIds : ℕ → String)
    (st : HttpState) : HttpState × Except AppErr String × ℕ :=
  httpGetGo responses freshIds st 0 defaultRetryOptions.maxRetries

/-- **C5.**  A 403 response makes `HttpClient.get` discard its cached
identity (axios instance and session id both cleared) and throw a
`RateLimitError` — `statusCode` 429, not a `ProxyError` — and that error
is classified non-retryable by the retry wrapper, so the call performs
no further attempt on any identity. -/
theorem httpGet_403_rotates_identity (st : HttpState) (freshId : String) (e : JsError) :
    e.status = some 403 →
    httpGetAttempt st freshId (.error e) = (httpReset, .error .rateLimitError) ∧
    appStatusCode .rateLimitError = 429 ∧
    (∀ orig, AppErr.rateLimitError ≠ .proxyError orig) ∧
    isRetryableError (jsErrorOfApp .rateLimitError) defaultRetryableErrors = false ∧
    httpReset.axiosInstance = false ∧ httpReset.sessionId = none ∧
    (∀ responses freshIds, responses 0 = .error e →
      httpGet responses freshIds st = (httpReset, .error .rateLimitError, 1)) := by
  intro h403
  refine ⟨?_, rfl, ?_, by decide, rfl, rfl, ?_⟩
  · simp [httpGetAttempt, h403]
  · intro orig h
    cases h
  · intro responses freshIds h0
    simp [httpGet, httpGetGo, httpGetAttempt, h0, h403, defaultRetryOptions,
      isRetryableError, jsErrorOfApp]

/-- Witness for `httpGet_403_rotates_identity` at a concrete 403. -/
theorem httpGet_403_rotates_identity_witness :
    httpGetAttempt ⟨true, some "sess"⟩ "fresh" (.error ⟨none, some 403⟩) =
      (httpReset, .error .rateLimitError) ∧
    httpGet (fun _ => .error ⟨none, some 403⟩) (fun _ => "fresh") ⟨true, some "sess"⟩ =
      (httpReset, .error .rateLimitError, 1) :=
  ⟨(httpGet_403_rotates_identity ⟨true, some "sess"⟩ "fresh" ⟨none, some 403⟩ rfl).1,
    (httpGet_403_rotates_identity ⟨true, some "sess"⟩ "fresh" ⟨none, some 403⟩ rfl).2.2.2.2.2.2
      (fun _ => .error ⟨none, some 403⟩) (fun _ => "fresh") rfl⟩

/-- A transient connection failure as thrown by axios. -/
def econnresetErr : JsError := ⟨some "ECONNRESET", none⟩

/-- The attempt outcomes of the C6 failing input: the first axios call
fails with `ECONNRESET`, every later one would succeed. -/
def responsesC6 : ℕ → Except JsError String :=
  fun i => if i = 0 then .error econnresetErr else .ok "ok"

/-- **C6, failing evaluation.**  `ECONNRESET` is in the retry util's own
retryable set, and `retryWithBackoff` applied to the raw outcomes would
retry once and succeed; but `HttpClient.get` wraps the axios failure
into a `ProxyError` (no `code`, no `response`) before the retry wrapper
classifies it, so the call gives up after a single attempt.  The
remaining conjuncts check the claim's correct parts on the util itself:
a non-retryable status propagates after one attempt, and retryable
statuses are retried with the doubling, capped delay sequence and a
bounded attempt count. -/
theorem httpGet_wrapping_defeats_retry :
    isRetryableError econnresetErr defaultRetryableErrors = true ∧
    httpGet responsesC6 (fun _ => "s") ⟨false, none⟩ =
      (⟨true, some "s"⟩, .error (.proxyError econnresetErr), 1) ∧
    retryWithBackoff responsesC6 defaultRetryOptions = (.ok "ok", 2, [1000]) ∧
    retryWithBackoff (fun _ => (.error ⟨none, some 404⟩ : Except JsError String))
        defaultRetryOptions = (.error ⟨none, some 404⟩, 1, []) ∧
    retryWithBackoff (fun _ => (.error ⟨none, some 429⟩ : Except JsError String))
        ⟨5, 1000, 10000, 2, defaultRetryableErrors⟩ =
      (.error ⟨none, some 429⟩, 6, [1000, 2000, 4000, 8000, 10000]) := by
  refine ⟨by decide, ?_, ?_, ?_, ?_⟩
  · simp [httpGet, httpGetGo, httpGetAttempt, responsesC6, econnresetErr,
      defaultRetryOptions, isRetryableError, jsErrorOfApp, getAxiosInstance]
  · simp [retryWithBackoff, retryGo, responsesC6, econnresetErr, defaultRetryOptions,
      isRetryableError, defaultRetryableErrors]
  · simp [retryWithBackoff, retryGo, defaultRetryOptions, isRetryableError]
  · simp [retryWithBackoff, retryGo, isRetryableError]

/-! ## Search ranking and name normalization (`ParfumoScraper`,
`src/scrapers/parfumoScraper.ts`) -/

/-- A word character of a JS regex (`\w`, determining `\b`). -/
def isWordChar (c : Char) : Bool :=
  isDigitChar c || ('a' ≤ c && c ≤ 'z') || ('A' ≤ c && c ≤ 'Z') || c = '_'

/-- A `\b` boundary between the previous character (`none` = string
start) and a word character. -/
def boundaryBefore (prev : Option Char) : Bool :=
  match prev with
  | none => true
  | some c => !isWordChar c

/-- Leftmost match of `\b(19|20)\d{2}\b` (the year regex of
`ParfumoScraper.extractYear`, line 314), returning the parsed number. -/
def findYear (prev : Option Char) : List Char → Option ℕ
  | c1 :: c2 :: c3 :: c4 :: rest =>
    if boundaryBefore prev && ((c1 = '1' && c2 = '9') || (c1 = '2' && c2 = '0')) &&
        isDigitChar c3 && isDigitChar c4 &&
        (match rest with
          | [] => true
          | r :: _ => !isWordChar r) then
      some (digitsToNat [c1, c2, c3, c4])
    else findYear (some c1) (c2 :: c3 :: c4 :: rest)
  | _ => none

/-- Whether a suffix matches `\s*\d{4}\s*$`. -/
def yearTailMatch (l : List Char) : Bool :=
  match l.dropWhile isJsSpace with
  | d1 :: d2 :: d3 :: d4 :: rest =>
    isDigitChar d1 && isDigitChar d2 && isDigitChar d3 && isDigitChar d4 &&
      rest.all isJsSpace
  | _ => false

/-- `.replace(/\s*\d{4}\s*$/, '')` of `extractYear` (line 317): cut the
string at the leftmost position whose suffix is whitespace, four digits
and trailing whitespace. -/
def stripTrailingYear : List Char → List Char
  | [] => []
  | c :: rest => if yearTailMatch (c :: rest) then [] else c :: stripTrailingYear rest

/-- `ParfumoScraper.extractYear` (lines 313–321). -/
def extractYear (name : String) : String × Option ℕ :=
  match findYear none name.data with
  | some year => (⟨trimChars (stripTrailingYear name.data)⟩, some year)
  | none => (name, none)

/-- The concentration-type alternatives of `cleanPerfumeName`'s suffix
regex (line 328). -/
def concentrationTypes : List String :=
  ["Eau de Parfum", "Eau de Toilette", "Parfum", "Cologne", "Extrait"]

/-- Whether a suffix matches
`\s+(Eau de Parfum|Eau de Toilette|Parfum|Cologne|Extrait)$/i`: at least
one whitespace character, then (case-insensitively) exactly one of the
alternatives up to the end. -/
def concSuffixAt (l : List Char) : Bool :=
  match l with
  | [] => false
  | c :: _ =>
    isJsSpace c && concentrationTypes.any fun alt => ciEqList alt.data (l.dropWhile isJsSpace)

/-- The suffix-stripping replace of `cleanPerfumeName`: cut at the
leftmost match of the concentration-suffix regex. -/
def stripConcSuffix : List Char → List Char
  | [] => []
  | c :: rest => if concSuffixAt (c :: rest) then [] else c :: stripConcSuffix rest

/-- `word.charAt(0).toUpperCase() + word.slice(1).toLowerCase()`
(line 332). -/
def capWord : List Char → List Char
  | [] => []
  | c :: rest => asciiUpper c :: rest.map asciiLower

/-- `Array.prototype.join` with a single-character separator. -/
def joinWith (sep : Char) : List (List Char) → List Char
  | [] => []
  | [w] => w
  | w :: ws => w ++ sep :: joinWith sep ws

/-- The `.split(' ').map(capitalize).join(' ')` step of
`cleanPerfumeName` (lines 331–333). -/
def titleCaseWords (l : List Char) : List Char :=
  joinWith ' ' ((splitOnChar ' ' l).map capWord)

/-- `ParfumoScraper.cleanPerfumeName` (lines 326–336). -/
def cleanPerfumeName (name : String) : String :=
  ⟨titleCaseWords (trimChars (stripConcSuffix name.data))⟩

/-- `.replace(/_/g, ' ')`. -/
def underscoresToSpaces (l : List Char) : List Char :=
  l.map fun c => if c = '_' then ' ' else c

/-- `ParfumoScraper.processPerfumeName` (lines 342–347). -/
def processPerfumeName (rawName : String) : String × Option ℕ :=
  let name : String := ⟨underscoresToSpaces rawName.data⟩
  let withoutYear := extractYear name
  (cleanPerfumeName withoutYear.1, withoutYear.2)

/-- `new URL(url).pathname` for an absolute `scheme://host/...` URL. -/
def pathnameOf (url : String) : String :=
  ⟨'/' :: joinWith '/' ((splitOnChar '/' url.data).drop 3)⟩

/-- The test `/^\/Perfumes\/[^/]+\/[^/]+/` of `isValidPerfumeUrl`. -/
def perfumePatternTest (l : List Char) : Bool :=
  if "/Perfumes/".data.isPrefixOf l then
    let rest := l.drop 10
    let seg1 := rest.takeWhile fun c => c ≠ '/'
    match seg1 with
    | [] => false
    | _ =>
      match rest.drop seg1.length with
      | '/' :: rest2 =>
        match rest2.takeWhile fun c => c ≠ '/' with
        | [] => false
        | _ => true
      | _ => false
  else false

/-- `ParfumoScraper.isValidPerfumeUrl` (lines 353–362). -/
def isValidPerfumeUrl (url : String) : Bool :=
  if url = "" then false
  else
    let path := if jsStartsWith url "http" then pathnameOf url else url
    perfumePatternTest path.data

/-- `String.prototype.split(/\s+/)`: pieces between maximal whitespace
runs, with an empty leading (trailing) piece when the string starts
(ends) with whitespace. -/
def jsSplitWs : List Char → List (List Char)
  | [] => [[]]
  | c :: rest =>
    let r := jsSplitWs rest
    if isJsSpace c then
      match rest with
      | [] => [] :: r
      | c2 :: _ => if isJsSpace c2 then r else [] :: r
    else
      match r with
      | [] => [[c]]
      | w :: ws => (c :: w) :: ws

/-- `ParfumoScraper.calculateRelevance` (lines 368–418). -/
def calculateRelevance (query brand name : String) : ℕ :=
  let queryLower := trimJS (lowerStr query)
  let brandLower := trimJS (lowerStr brand)
  let nameLower := trimJS (lowerStr name)
  let combined : String := ⟨brandLower.data ++ ' ' :: nameLower.data⟩
  if combined = queryLower then 100
  else
    let score1 : ℕ :=
      (if brandLower = queryLower then 50 else 0) + (if nameLower = queryLower then 50 else 0)
    let queryWords := (jsSplitWs queryLower.data).filter fun w => w.length > 2
    let combinedWords := jsSplitWs combined.data
    let score2 : ℕ := score1 +
      queryWords.foldl
        (fun acc queryWord =>
          acc + (if listContainsSub brandLower.data queryWord then 10 else 0) +
            (if listContainsSub nameLower.data queryWord then 15 else 0) +
            (if combinedWords.any (fun w => queryWord.isPrefixOf w) then 20 else 0))
        0
    let score3 : ℕ := score2 + (if listContainsSub combined.data queryLower.data then 30 else 0)
    min score3 100

/-- One search hit, with the relevance score the source carries for
sorting (`ResultWithScore`); the DOM-derived rating and image fields are
omitted. -/
structure RankedResult where
  name : String
  brand : String
  url : String
  year : Option ℕ
  relevance : ℕ
deriving DecidableEq, Repr

/-- `config.scraper.baseUrl`. -/
def scraperBaseUrl : String := "https://www.parfumo.com"

/-- The per-link body of `ParfumoScraper.search` (lines 59–123): the
`hrefs` are the candidate link targets of the winning selector, in
document order; `seenUrls` and `results` accumulate exactly as in the
source (duplicate URLs are recorded as seen even when the candidate is
later discarded). -/
def searchStep (query : String) (limit : ℕ) :
    List String → List String → List RankedResult → List RankedResult
  | [], _, results => results
  | href :: rest, seenUrls, results =>
    if results.length ≥ limit then results
    else
      let fullUrl : String :=
        if jsStartsWith href "http" then href else ⟨scraperBaseUrl.data ++ href.data⟩
      if !isValidPerfumeUrl fullUrl then searchStep query limit rest seenUrls results
      else if seenUrls.contains fullUrl then searchStep query limit rest seenUrls results
      else
        let seen2 := fullUrl :: seenUrls
        let urlParts := splitOnChar '/' fullUrl.data
        let brand : String := ⟨underscoresToSpaces (urlParts.getD 4 [])⟩
        let pn := processPerfumeName ⟨urlParts.getD 5 []⟩
        let relevanceScore := calculateRelevance query brand pn.1
        if relevanceScore < 5 then searchStep query limit rest seen2 results
        else if pn.1 ≠ "" ∧ brand ≠ "" then
          searchStep query limit rest seen2
            (results ++ [⟨pn.1, brand, fullUrl, pn.2, relevanceScore⟩])
        else searchStep query limit rest seen2 results

/-- `ParfumoScraper.search` up to the final sort (line 135):
`results.sort((a, b) => b.relevance - a.relevance)` is a stable
descending sort, modelled by insertion sort with the non-strict
descending relation. -/
def searchRanked (query : String) (limit : ℕ) (hrefs : List String) : List RankedResult :=
  List.insertionSort (fun a b => b.relevance ≤ a.relevance) (searchStep query limit hrefs [] [])

/-- A returned search result (the `relevance` field is stripped before
returning, line 138). -/
structure SearchResultRec where
  name : String
  brand : String
  url : String
  year : Option ℕ
deriving DecidableEq, Repr

/-- `ParfumoScraper.search` (lines 15–146). -/
def search (query : String) (limit : ℕ) (hrefs : List String) : List SearchResultRec :=
  (searchRanked query limit hrefs).map fun r => ⟨r.name, r.brand, r.url, r.year⟩

/-- Every result accumulated by the search loop scores at least the
relevance floor of 5 (the loop invariant of lines 92–121). -/
theorem searchStep_floor (query : String) (limit : ℕ) :
    ∀ (hrefs : List String) (seen : List String) (results : List RankedResult),
      (∀ r ∈ results, 5 ≤ r.relevance) →
      ∀ r ∈ searchStep query limit hrefs seen results, 5 ≤ r.relevance := by
  intro hrefs
  induction hrefs with
  | nil => intro seen results h r hr; exact h r hr
  | cons href rest ih =>
    intro seen results h r hr
    simp only [searchStep] at hr
    split_ifs at hr <;>
      first
      | exact h r hr
      | exact ih _ _ h r hr
      | · refine ih _ _ ?_ r hr
          intro r' hr'
          rcases List.mem_append.mp hr' with hmem | hmem
          · exact h r' hmem
          · rcases List.mem_singleton.mp hmem with rfl
            dsimp only at *
            omega

/-- **C7.**  The relevance score is capped at 100 (and is a natural
number, hence at least 0); an exact match of the trimmed lower-cased
query against `brand name` short-circuits to exactly 100; every ranked
search result scores at least the floor of 5; the ranked list is
descending in relevance; and the returned results are exactly the ranked
results with the score stripped, so a candidate scoring below 5 never
appears. -/
theorem calculateRelevance_search_spec :
    (∀ query brand name, calculateRelevance query brand name ≤ 100) ∧
    (∀ query brand name,
      (⟨(trimJS (lowerStr brand)).data ++ ' ' :: (trimJS (lowerStr name)).data⟩ : String) =
        trimJS (lowerStr query) →
      calculateRelevance query brand name = 100) ∧
    (∀ query limit hrefs r, r ∈ searchRanked query limit hrefs → 5 ≤ r.relevance) ∧
    (∀ query limit hrefs,
      (searchRanked query limit hrefs).Pairwise fun a b => b.relevance ≤ a.relevance) ∧
    (∀ query limit hrefs s, s ∈ search query limit hrefs →
      ∃ r ∈ searchRanked query limit hrefs,
        5 ≤ r.relevance ∧ s = ⟨r.name, r.brand, r.url, r.year⟩) := by
  refine ⟨?_, ?_, ?_, ?_, ?_⟩
  · intro query brand name
    simp only [calculateRelevance]
    split
    · exact le_refl 100
    · exact min_le_right _ _
  · intro query brand name hmatch
    simp only [calculateRelevance]
    rw [if_pos hmatch]
  · intro query limit hrefs r hr
    refine searchStep_floor query limit hrefs [] [] (by simp) r ?_
    exact ((List.perm_insertionSort _ _).mem_iff).mp hr
  · intro query limit hrefs
    letI : IsTotal RankedResult fun a b => b.relevance ≤ a.relevance :=
      ⟨fun a b => le_total b.relevance a.relevance⟩
    letI : IsTrans RankedResult fun a b => b.relevance ≤ a.relevance :=
      ⟨fun _ _ _ h1 h2 => le_trans h2 h1⟩
    exact List.sorted_insertionSort _ _
  · intro query limit hrefs s hs
    rcases List.mem_map.mp hs with ⟨r, hr, rfl⟩
    refine ⟨r, hr, ?_, rfl⟩
    refine searchStep_floor query limit hrefs [] [] (by simp) r ?_
    exact ((List.perm_insertionSort _ _).mem_iff).mp hr

/-- Witness for `calculateRelevance_search_spec` at concrete inputs:
the combined exact match for Creed Aventus, and the floor/stripping
conjuncts at a concrete one-hit search. -/
theorem calculateRelevance_search_spec_witness :
    calculateRelevance "Creed Aventus" "Creed" "Aventus" = 100 ∧
    5 ≤ (⟨"Aventus", "Creed", "https://www.parfumo.com/Perfumes/Creed/Aventus_2010",
      some 2010, 100⟩ : RankedResult).relevance ∧
    (∃ r ∈ searchRanked "aventus" 20 ["/Perfumes/Creed/Aventus_2010"],
      5 ≤ r.relevance ∧
        (⟨"Aventus", "Creed", "https://www.parfumo.com/Perfumes/Creed/Aventus_2010",
          some 2010⟩ : SearchResultRec) = ⟨r.name, r.brand, r.url, r.year⟩) :=
  ⟨calculateRelevance_search_spec.2.1 "Creed Aventus" "Creed" "Aventus" (by decide),
    calculateRelevance_search_spec.2.2.1 "aventus" 20 ["/Perfumes/Creed/Aventus_2010"]
      ⟨"Aventus", "Creed", "https://www.parfumo.com/Perfumes/Creed/Aventus_2010",
        some 2010, 100⟩ (by decide),
    calculateRelevance_search_spec.2.2.2.2 "aventus" 20 ["/Perfumes/Creed/Aventus_2010"]
      ⟨"Aventus", "Creed", "https://www.parfumo.com/Perfumes/Creed/Aventus_2010",
        some 2010⟩ (by decide)⟩

/-- Bound on the numeric value of a decimal digit. -/
theorem digitCharBounds (c : Char) (h : isDigitChar c = true) :
    48 ≤ c.toNat ∧ c.toNat ≤ 57 := by
  simp only [isDigitChar, Bool.and_eq_true, decide_eq_true_eq] at h
  obtain ⟨h1, h2⟩ := h
  rw [Char.le_def] at h1 h2
  exact ⟨h1, h2⟩

/-- Any year matched by `\b(19|20)\d{2}\b` lies in 1900–2099. -/
theorem findYear_range :
    ∀ (l : List Char) (prev : Option Char) (y : ℕ),
      findYear prev l = some y → 1900 ≤ y ∧ y ≤ 2099 := by
  intro l
  induction l with
  | nil => intro prev y h; simp [findYear] at h
  | cons c1 t ih =>
    intro prev y h
    rcases t with - | ⟨a, - | ⟨b, - | ⟨d, rest⟩⟩⟩
    · simp [findYear] at h
    · simp [findYear] at h
    · simp [findYear] at h
    · simp only [findYear] at h
      split_ifs at h with hc
      · simp only [Option.some.injEq] at h
        subst h
        simp only [Bool.and_eq_true, Bool.or_eq_true, decide_eq_true_eq] at hc
        obtain ⟨⟨⟨⟨-, h19or20⟩, hb⟩, hd⟩, -⟩ := hc
        obtain ⟨hb1, hb2⟩ := digitCharBounds b hb
        obtain ⟨hd1, hd2⟩ := digitCharBounds d hd
        rcases h19or20 with ⟨rfl, rfl⟩ | ⟨rfl, rfl⟩ <;>
          · simp only [digitsToNat, List.foldl,
              show ('1' : Char).toNat = 49 from by decide,
              show ('9' : Char).toNat = 57 from by decide,
              show ('2' : Char).toNat = 50 from by decide,
              show ('0' : Char).toNat = 48 from by decide]
            omega
      · exact ih (some c1) y h

/-- **C8 (amended).**  The year extracted by name normalization always
lies in 1900–2099 (the regex `\b(19|20)\d{2}\b`): a 4-digit token is
accepted as the year exactly when it starts with `19` or `20` at word
boundaries, not when it lies in 1800–currentYear+1. -/
theorem processPerfumeName_year_range (s : String) (y : ℕ)
    (h : (processPerfumeName s).2 = some y) : 1900 ≤ y ∧ y ≤ 2099 := by
  simp only [processPerfumeName, extractYear] at h
  rcases hf : findYear none (underscoresToSpaces s.data) with - | y'
  · rw [hf] at h
    simp at h
  · rw [hf] at h
    simp only [Option.some.injEq] at h
    subst h
    exact findYear_range _ none y' hf

/-- Witness for `processPerfumeName_year_range`. -/
theorem processPerfumeName_year_range_witness : 1900 ≤ 2010 ∧ 2010 ≤ 2099 :=
  processPerfumeName_year_range "Aventus_2010" 2010 (by decide)

/-- **C8, counterexample.**  `2099` is outside 1800–currentYear+1 yet is
extracted as a year and stripped from the name, while `1850` is inside
that range yet stays in the name with no year extracted; so the claimed
1800–currentYear+1 rule is not the code's rule. -/
theorem processPerfumeName_year_range_cex :
    processPerfumeName "Perfume_2099" = ("Perfume", some 2099) ∧
    processPerfumeName "Perfume_1850" = ("Perfume 1850", none) ∧
    1800 ≤ 1850 ∧ 1850 ≤ 2027 ∧ 2027 < 2099 := by
  refine ⟨by decide, by decide, by norm_num⟩

/-! ### Character-level facts about the ASCII case maps -/

/-- `Char.ofNat` round-trips on valid code points. -/
theorem charOfNat_toNat (n : ℕ) (h : n.isValidChar) : (Char.ofNat n).toNat = n := by
  simp [Char.ofNat, h, Char.toNat, Char.ofNatAux, UInt32.toNat, UInt32.ofNatCore,
    BitVec.toNat_ofNatLt]

/-- Code-point range of a lower-case ASCII letter. -/
theorem lowerRange (c : Char) (h : ('a' ≤ c && c ≤ 'z') = true) :
    97 ≤ c.toNat ∧ c.toNat ≤ 122 := by
  simp only [Bool.and_eq_true, decide_eq_true_eq] at h
  obtain ⟨h1, h2⟩ := h
  rw [Char.le_def] at h1 h2
  exact ⟨h1, h2⟩

/-- Code-point range of an upper-case ASCII letter. -/
theorem upperRange (c : Char) (h : ('A' ≤ c && c ≤ 'Z') = true) :
    65 ≤ c.toNat ∧ c.toNat ≤ 90 := by
  simp only [Bool.and_eq_true, decide_eq_true_eq] at h
  obtain ⟨h1, h2⟩ := h
  rw [Char.le_def] at h1 h2
  exact ⟨h1, h2⟩

/-- `asciiUpper` either fixes its argument or maps a lower-case letter
into the upper-case range. -/
theorem asciiUpper_cases (c : Char) :
    asciiUpper c = c ∨
      (97 ≤ c.toNat ∧ c.toNat ≤ 122 ∧ (asciiUpper c).toNat = c.toNat - 32) := by
  by_cases h : ('a' ≤ c && c ≤ 'z') = true
  · obtain ⟨h1, h2⟩ := lowerRange c h
    refine Or.inr ⟨h1, h2, ?_⟩
    simp only [asciiUpper, h, if_true]
    exact charOfNat_toNat _ (Or.inl (by omega))
  · exact Or.inl (by simp [asciiUpper, h])

/-- `asciiLower` either fixes its argument or maps an upper-case letter
into the lower-case range. -/
theorem asciiLower_cases (c : Char) :
    asciiLower c = c ∨
      (65 ≤ c.toNat ∧ c.toNat ≤ 90 ∧ (asciiLower c).toNat = c.toNat + 32) := by
  by_cases h : ('A' ≤ c && c ≤ 'Z') = true
  · obtain ⟨h1, h2⟩ := upperRange c h
    refine Or.inr ⟨h1, h2, ?_⟩
    simp only [asciiLower, h, if_true]
    exact charOfNat_toNat _ (Or.inl (by omega))
  · exact Or.inl (by simp [asciiLower, h])

/-- On the lower-case range `asciiUpper` subtracts 32. -/
theorem asciiUpper_of_lower (c : Char) (h1 : 97 ≤ c.toNat) (h2 : c.toNat ≤ 122) :
    (asciiUpper c).toNat = c.toNat - 32 := by
  have hcond : ('a' ≤ c && c ≤ 'z') = true := by
    simp only [Bool.and_eq_true, decide_eq_true_eq]
    rw [Char.le_def, Char.le_def]
    exact ⟨h1, h2⟩
  simp only [asciiUpper, hcond, if_true]
  exact charOfNat_toNat _ (Or.inl (by omega))

/-- On the upper-case range `asciiLower` adds 32. -/
theorem asciiLower_of_upper (c : Char) (h1 : 65 ≤ c.toNat) (h2 : c.toNat ≤ 90) :
    (asciiLower c).toNat = c.toNat + 32 := by
  have hcond : ('A' ≤ c && c ≤ 'Z') = true := by
    simp only [Bool.and_eq_true, decide_eq_true_eq]
    rw [Char.le_def, Char.le_def]
    exact ⟨h1, h2⟩
  simp only [asciiLower, hcond, if_true]
  exact charOfNat_toNat _ (Or.inl (by omega))

/-- `asciiUpper` is idempotent. -/
theorem asciiUpper_idem (c : Char) : asciiUpper (asciiUpper c) = asciiUpper c := by
  rcases asciiUpper_cases (asciiUpper c) with h' | ⟨h1', h2', h3'⟩
  · exact h'
  · exfalso
    rcases asciiUpper_cases c with h | ⟨h1, h2, h3⟩
    · rw [h] at h1' h2'
      have := asciiUpper_of_lower c h1' h2'
      rw [h] at this
      omega
    · omega

/-- `asciiLower` is idempotent. -/
theorem asciiLower_idem (c : Char) : asciiLower (asciiLower c) = asciiLower c := by
  rcases asciiLower_cases (asciiLower c) with h' | ⟨h1', h2', h3'⟩
  · exact h'
  · exfalso
    rcases asciiLower_cases c with h | ⟨h1, h2, h3⟩
    · rw [h] at h1' h2'
      have := asciiLower_of_upper c h1' h2'
      rw [h] at this
      omega
    · omega

/-- `isJsSpace` only depends on the code point. -/
theorem isJsSpace_iff_toNat (c : Char) :
    isJsSpace c = true ↔
      c.toNat = 32 ∨ c.toNat = 9 ∨ c.toNat = 10 ∨ c.toNat = 13 ∨ c.toNat = 11 ∨
        c.toNat = 12 := by
  have hinj : ∀ d : Char, c = d ↔ c.toNat = d.toNat := by
    intro d
    constructor
    · intro h; rw [h]
    · intro h
      have := Char.ofNat_toNat c
      have hd := Char.ofNat_toNat d
      rw [← this, ← hd, h]
  simp only [isJsSpace, Bool.or_eq_true, decide_eq_true_eq]
  rw [hinj ' ', hinj '\t', hinj '\n', hinj '\r', hinj '\x0b', hinj '\x0c']
  simp only [show (' ' : Char).toNat = 32 from by decide,
    show ('\t' : Char).toNat = 9 from by decide,
    show ('\n' : Char).toNat = 10 from by decide,
    show ('\r' : Char).toNat = 13 from by decide,
    show ('\x0b' : Char).toNat = 11 from by decide,
    show ('\x0c' : Char).toNat = 12 from by decide]
  tauto

/-- Case mapping preserves whitespace-ness. -/
theorem isJsSpace_asciiUpper (c : Char) : isJsSpace (asciiUpper c) = isJsSpace c := by
  rcases asciiUpper_cases c with h | ⟨h1, h2, h3⟩
  · rw [h]
  · have hl : isJsSpace (asciiUpper c) = false := by
      rw [← Bool.not_eq_true, isJsSpace_iff_toNat]; omega
    have hr : isJsSpace c = false := by
      rw [← Bool.not_eq_true, isJsSpace_iff_toNat]; omega
    rw [hl, hr]

/-- Case mapping preserves whitespace-ness. -/
theorem isJsSpace_asciiLower (c : Char) : isJsSpace (asciiLower c) = isJsSpace c := by
  rcases asciiLower_cases c with h | ⟨h1, h2, h3⟩
  · rw [h]
  · have hl : isJsSpace (asciiLower c) = false := by
      rw [← Bool.not_eq_true, isJsSpace_iff_toNat]; omega
    have hr : isJsSpace c = false := by
      rw [← Bool.not_eq_true, isJsSpace_iff_toNat]; omega
    rw [hl, hr]

/-- Only a space is case-mapped to a space. -/
theorem asciiUpper_eq_space (c : Char) (h : asciiUpper c = ' ') : c = ' ' := by
  rcases asciiUpper_cases c with hc | ⟨h1, h2, h3⟩
  · rw [← hc, h]
  · rw [h] at h3
    rw [show (' ' : Char).toNat = 32 from by decide] at h3
    omega

/-- Only a space is case-mapped to a space. -/
theorem asciiLower_eq_space (c : Char) (h : asciiLower c = ' ') : c = ' ' := by
  rcases asciiLower_cases c with hc | ⟨h1, h2, h3⟩
  · rw [← hc, h]
  · rw [h] at h3
    rw [show (' ' : Char).toNat = 32 from by decide] at h3
    omega

/-- Only an underscore is case-mapped to an underscore. -/
theorem asciiUpper_eq_underscore (c : Char) (h : asciiUpper c = '_') : c = '_' := by
  rcases asciiUpper_cases c with hc | ⟨h1, h2, h3⟩
  · rw [← hc, h]
  · rw [h] at h3
    rw [show ('_' : Char).toNat = 95 from by decide] at h3
    omega

/-- Only an underscore is case-mapped to an underscore. -/
theorem asciiLower_eq_underscore (c : Char) (h : asciiLower c = '_') : c = '_' := by
  rcases asciiLower_cases c with hc | ⟨h1, h2, h3⟩
  · rw [← hc, h]
  · rw [h] at h3
    rw [show ('_' : Char).toNat = 95 from by decide] at h3
    omega

/-! ### Splitting and joining on a separator -/

/-- A split is never the empty list of pieces. -/
theorem splitOnChar_ne_nil (sep : Char) (l : List Char) : splitOnChar sep l ≠ [] := by
  induction l with
  | nil => simp [splitOnChar]
  | cons c rest ih =>
    simp only [splitOnChar]
    split_ifs
    · simp
    · rcases hr : splitOnChar sep rest with - | ⟨w, ws⟩
      · simp
      · simp

/-- Pieces of a split never contain the separator. -/
theorem sep_notMem_splitOnChar (sep : Char) (l : List Char) :
    ∀ w ∈ splitOnChar sep l, sep ∉ w := by
  induction l with
  | nil =>
    intro w hw
    simp only [splitOnChar, List.mem_singleton] at hw
    simp [hw]
  | cons c rest ih =>
    intro w hw
    simp only [splitOnChar] at hw
    split_ifs at hw with hc
    · rcases List.mem_cons.mp hw with rfl | hw2
      · simp
      · exact ih w hw2
    · rcases hr : splitOnChar sep rest with - | ⟨w0, ws⟩
      · exact absurd hr (splitOnChar_ne_nil sep rest)
      · rw [hr] at hw
        rcases List.mem_cons.mp hw with rfl | hw2
        · intro hmem
          rcases List.mem_cons.mp hmem with rfl | hmem2
          · exact hc rfl
          · exact ih w0 (hr ▸ List.mem_cons_self _ _) hmem2
        · exact ih w (hr ▸ List.mem_cons_of_mem _ hw2)

/-- Joining a split restores the original list. -/
theorem joinWith_splitOnChar (sep : Char) (l : List Char) :
    joinWith sep (splitOnChar sep l) = l := by
  induction l with
  | nil => simp [splitOnChar, joinWith]
  | cons c rest ih =>
    simp only [splitOnChar]
    split_ifs with hc
    · subst hc
      rcases hr : splitOnChar c rest with - | ⟨w, ws⟩
      · exact absurd hr (splitOnChar_ne_nil c rest)
      · rw [hr] at ih
        rcases ws with - | ⟨w2, ws2⟩
        · simp only [joinWith] at ih ⊢
          simp [ih]
        · simp only [joinWith] at ih ⊢
          simp [ih]
    · rcases hr : splitOnChar sep rest with - | ⟨w, ws⟩
      · exact absurd hr (splitOnChar_ne_nil sep rest)
      · rw [hr] at ih
        rcases ws with - | ⟨w2, ws2⟩
        · simp only [joinWith] at ih ⊢
          rw [ih]
        · simp only [joinWith] at ih ⊢
          simp [ih]

/-- Splitting a separator-free list yields one piece. -/
theorem splitOnChar_of_notMem (sep : Char) (w : List Char) (h : sep ∉ w) :
    splitOnChar sep w = [w] := by
  induction w with
  | nil => simp [splitOnChar]
  | cons c rest ih =>
    have hc : ¬c = sep := by
      intro hcon
      exact h (hcon ▸ List.mem_cons_self _ _)
    have hrest : sep ∉ rest := fun hm => h (List.mem_cons_of_mem _ hm)
    simp only [splitOnChar, if_neg hc, ih hrest]

/-- Splitting distributes over a separator-free piece followed by a
separator. -/
theorem splitOnChar_append_sep (sep : Char) (w rest : List Char) (h : sep ∉ w) :
    splitOnChar sep (w ++ sep :: rest) = w :: splitOnChar sep rest := by
  induction w with
  | nil => simp [splitOnChar]
  | cons c t ih =>
    have hc : ¬c = sep := by
      intro hcon
      exact h (hcon ▸ List.mem_cons_self _ _)
    have ht : sep ∉ t := fun hm => h (List.mem_cons_of_mem _ hm)
    simp only [List.cons_append, splitOnChar, List.append_eq, if_neg hc, ih ht]

/-- Splitting a join of separator-free pieces restores the pieces. -/
theorem splitOnChar_joinWith (sep : Char) :
    ∀ ws : List (List Char), ws ≠ [] → (∀ w ∈ ws, sep ∉ w) →
      splitOnChar sep (joinWith sep ws) = ws := by
  intro ws
  induction ws with
  | nil => intro h; exact absurd rfl h
  | cons w ws2 ih =>
    intro _ hfree
    rcases ws2 with - | ⟨w2, ws3⟩
    · simp only [joinWith]
      exact splitOnChar_of_notMem sep w (hfree w (List.mem_cons_self _ _))
    · have hw : sep ∉ w := hfree w (List.mem_cons_self _ _)
      simp only [joinWith, splitOnChar_append_sep sep w _ hw]
      rw [ih (by simp) fun x hx => hfree x (List.mem_cons_of_mem _ hx)]

/-- `capWord` maps a separator-free word to a separator-free word. -/
theorem capWord_space_free (w : List Char) (h : ' ' ∉ w) : ' ' ∉ capWord w := by
  rcases w with - | ⟨c, t⟩
  · simp [capWord]
  · simp only [capWord, List.mem_cons]
    rintro (hsp | hsp)
    · exact h (((asciiUpper_eq_space c hsp.symm) ▸ List.mem_cons_self _ _))
    · rcases List.mem_map.mp hsp with ⟨d, hd, hds⟩
      exact h (List.mem_cons_of_mem _ ((asciiLower_eq_space d hds) ▸ hd))

/-- `capWord` is idempotent. -/
theorem capWord_capWord (w : List Char) : capWord (capWord w) = capWord w := by
  rcases w with - | ⟨c, t⟩
  · rfl
  · simp only [capWord, asciiUpper_idem, List.map_map, List.cons.injEq, true_and]
    exact List.map_congr_left fun d _ => asciiLower_idem d

/-- The title-casing pass is idempotent. -/
theorem titleCaseWords_idem (l : List Char) :
    titleCaseWords (titleCaseWords l) = titleCaseWords l := by
  unfold titleCaseWords
  rw [splitOnChar_joinWith ' ' ((splitOnChar ' ' l).map capWord)
      (by simpa using splitOnChar_ne_nil ' ' l)
      (by
        intro w hw
        rcases List.mem_map.mp hw with ⟨w0, hw0, rfl⟩
        exact capWord_space_free w0 (sep_notMem_splitOnChar ' ' l w0 hw0)),
    List.map_map]
  congr 1
  exact List.map_congr_left fun w _ => capWord_capWord w

/-! ### Trim stability and underscore-freeness of normalized names -/

/-- A character of the title-cased string is a case-mapped image of the
corresponding input character. -/
def caseRel (a b : Char) : Prop :=
  b = asciiUpper a ∨ b = asciiLower a

/-- Case-mapped images have the same whitespace-ness. -/
theorem caseRel_space (a b : Char) (h : caseRel a b) : isJsSpace b = isJsSpace a := by
  rcases h with rfl | rfl
  · exact isJsSpace_asciiUpper a
  · exact isJsSpace_asciiLower a

/-- Only an underscore is case-mapped to an underscore. -/
theorem caseRel_underscore (a b : Char) (h : caseRel a b) (hb : b = '_') : a = '_' := by
  rcases h with rfl | rfl
  · exact asciiUpper_eq_underscore a hb
  · exact asciiLower_eq_underscore a hb

/-- `capWord` is pointwise case-mapping. -/
theorem capWord_rel (w : List Char) : List.Forall₂ caseRel w (capWord w) := by
  rcases w with - | ⟨c, t⟩
  · exact List.Forall₂.nil
  · refine List.Forall₂.cons (Or.inl rfl) ?_
    rw [List.forall₂_map_right_iff]
    exact List.forall₂_same.mpr fun d _ => Or.inr rfl

/-- `joinWith` respects pointwise relations (the separator relating to
itself). -/
theorem joinWith_rel (sep : Char) (hsep : caseRel sep sep) :
    ∀ ws ws', List.Forall₂ (List.Forall₂ caseRel) ws ws' →
      List.Forall₂ caseRel (joinWith sep ws) (joinWith sep ws') := by
  intro ws
  induction ws with
  | nil =>
    intro ws' h
    cases h
    exact List.Forall₂.nil
  | cons w t ih =>
    intro ws' h
    cases h with
    | cons hw ht =>
      cases ht with
      | nil => exact hw
      | cons hx hxs =>
        simp only [joinWith]
        exact List.rel_append hw (List.Forall₂.cons hsep (ih _ (List.Forall₂.cons hx hxs)))

/-- Title-casing is a pointwise case-mapping of the input. -/
theorem titleCase_rel (l : List Char) : List.Forall₂ caseRel l (titleCaseWords l) := by
  have h2 : List.Forall₂ (List.Forall₂ caseRel) (splitOnChar ' ' l)
      ((splitOnChar ' ' l).map capWord) := by
    rw [List.forall₂_map_right_iff]
    exact List.forall₂_same.mpr fun w _ => capWord_rel w
  have h3 := joinWith_rel ' ' (Or.inl (by decide)) _ _ h2
  rwa [joinWith_splitOnChar] at h3

/-- The head of a `dropWhile` residue falsifies the predicate. -/
theorem head?_dropWhile_false (p : Char → Bool) (l : List Char) :
    ∀ c, (l.dropWhile p).head? = some c → p c = false := by
  induction l with
  | nil => intro c h; simp [List.dropWhile] at h
  | cons a t ih =>
    intro c h
    rw [List.dropWhile_cons] at h
    split_ifs at h with hp
    · exact ih c h
    · simp only [List.head?_cons, Option.some.injEq] at h
      subst h
      exact Bool.not_eq_true _ ▸ hp

/-- `dropWhile` fixes a list whose head falsifies the predicate. -/
theorem dropWhile_eq_self_of_head (p : Char → Bool) (l : List Char)
    (h : ∀ c, l.head? = some c → p c = false) : l.dropWhile p = l := by
  cases l with
  | nil => rfl
  | cons a t =>
    rw [List.dropWhile_cons, if_neg]
    simp [h a rfl]

/-- `dropWhile` is idempotent. -/
theorem dropWhile_idem (p : Char → Bool) (l : List Char) :
    (l.dropWhile p).dropWhile p = l.dropWhile p :=
  dropWhile_eq_self_of_head p _ (head?_dropWhile_false p l)

/-- `dropWhile` keeps the last element when its residue is nonempty. -/
theorem getLast?_dropWhile (p : Char → Bool) (l : List Char)
    (hne : l.dropWhile p ≠ []) : (l.dropWhile p).getLast? = l.getLast? := by
  obtain ⟨t, ht⟩ := List.dropWhile_suffix (l := l) p
  conv_rhs => rw [← ht]
  rw [List.getLast?_append_of_ne_nil _ hne]

/-- The trimmed list starts with a non-whitespace character. -/
theorem trimChars_dropWhile (l : List Char) :
    (trimChars l).dropWhile isJsSpace = trimChars l := by
  apply dropWhile_eq_self_of_head
  intro c hc
  unfold trimChars at hc
  rw [List.head?_reverse] at hc
  by_cases hne : (l.dropWhile isJsSpace).reverse.dropWhile isJsSpace = []
  · rw [hne] at hc
    cases hc
  · rw [getLast?_dropWhile _ _ hne, List.getLast?_reverse] at hc
    exact head?_dropWhile_false _ _ c hc

/-- The trimmed list ends with a non-whitespace character. -/
theorem trimChars_reverse_dropWhile (l : List Char) :
    (trimChars l).reverse.dropWhile isJsSpace = (trimChars l).reverse := by
  unfold trimChars
  rw [List.reverse_reverse]
  exact dropWhile_idem _ _

/-- Being `dropWhile`-fixed transfers along a pointwise case-mapping. -/
theorem forall2_dropWhile_self (l l' : List Char) (hrel : List.Forall₂ caseRel l l')
    (hl : l.dropWhile isJsSpace = l) : l'.dropWhile isJsSpace = l' := by
  cases hrel with
  | nil => rfl
  | cons hab ht =>
    rename_i a b t t'
    rw [List.dropWhile_cons] at hl ⊢
    by_cases ha : isJsSpace a = true
    · rw [if_pos ha] at hl
      have hlen := congrArg List.length hl
      have hle := dropWhileLengthLe isJsSpace t
      simp only [List.length_cons] at hlen
      omega
    · rw [if_neg]
      rw [caseRel_space a b hab]
      exact ha

/-- Trimming fixes the title-casing of a trimmed list. -/
theorem trimChars_titleCase_trim (z : List Char) :
    trimChars (titleCaseWords (trimChars z)) = titleCaseWords (trimChars z) := by
  have hrel := titleCase_rel (trimChars z)
  have h1 := forall2_dropWhile_self _ _ hrel (trimChars_dropWhile z)
  have h2 := forall2_dropWhile_self _ _ (List.forall₂_reverse_iff.mpr hrel)
    (trimChars_reverse_dropWhile z)
  have heq : ∀ w : List Char,
      trimChars w = ((w.dropWhile isJsSpace).reverse.dropWhile isJsSpace).reverse :=
    fun _ => rfl
  rw [heq (titleCaseWords (trimChars z)), h1, h2, List.reverse_reverse]

/-- A pointwise relation pulls membership back. -/
theorem forall2_mem_right {R : Char → Char → Prop} :
    ∀ l l', List.Forall₂ R l l' → ∀ b ∈ l', ∃ a ∈ l, R a b := by
  intro l l' h
  induction h with
  | nil => intro b hb; cases hb
  | cons hr ht ih =>
    intro b hb
    rcases List.mem_cons.mp hb with rfl | hb2
    · exact ⟨_, List.mem_cons_self _ _, hr⟩
    · rcases ih b hb2 with ⟨a, ha, har⟩
      exact ⟨a, List.mem_cons_of_mem _ ha, har⟩

/-- Trimming only removes characters. -/
theorem mem_trimChars (l : List Char) (x : Char) (h : x ∈ trimChars l) : x ∈ l := by
  unfold trimChars at h
  rw [List.mem_reverse] at h
  have h1 := (List.dropWhile_suffix isJsSpace).sublist.subset h
  rw [List.mem_reverse] at h1
  exact (List.dropWhile_suffix isJsSpace).sublist.subset h1

/-- Suffix stripping only removes characters. -/
theorem mem_stripConcSuffix (l : List Char) (x : Char) (h : x ∈ stripConcSuffix l) :
    x ∈ l := by
  induction l with
  | nil => cases h
  | cons c rest ih =>
    simp only [stripConcSuffix] at h
    split_ifs at h
    · cases h
    · rcases List.mem_cons.mp h with rfl | hm
      · exact List.mem_cons_self _ _
      · exact List.mem_cons_of_mem _ (ih hm)

/-- Trailing-year stripping only removes characters. -/
theorem mem_stripTrailingYear (l : List Char) (x : Char) (h : x ∈ stripTrailingYear l) :
    x ∈ l := by
  induction l with
  | nil => cases h
  | cons c rest ih =>
    simp only [stripTrailingYear] at h
    split_ifs at h
    · cases h
    · rcases List.mem_cons.mp h with rfl | hm
      · exact List.mem_cons_self _ _
      · exact List.mem_cons_of_mem _ (ih hm)

/-- Title-casing preserves underscore-freeness (backwards). -/
theorem mem_underscore_titleCase (l : List Char) (h : '_' ∈ titleCaseWords l) : '_' ∈ l := by
  rcases forall2_mem_right _ _ (titleCase_rel l) '_' h with ⟨a, ha, har⟩
  rwa [caseRel_underscore a '_' har rfl] at ha

/-- Underscore replacement leaves no underscore. -/
theorem underscore_notMem_underscoresToSpaces (l : List Char) :
    '_' ∉ underscoresToSpaces l := by
  intro h
  rcases List.mem_map.mp h with ⟨y, -, hf⟩
  by_cases hy : y = '_'
  · rw [if_pos hy] at hf
    cases hf
  · rw [if_neg hy] at hf
    exact hy hf

/-- A normalized perfume name contains no underscore. -/
theorem underscore_notMem_processed (raw : String) :
    '_' ∉ (processPerfumeName raw).1.data := by
  intro hmem
  have hshape : (processPerfumeName raw).1.data =
      titleCaseWords (trimChars (stripConcSuffix
        (extractYear ⟨underscoresToSpaces raw.data⟩).1.data)) := rfl
  rw [hshape] at hmem
  have h1 := mem_trimChars _ _ (mem_underscore_titleCase _ hmem)
  have h2 := mem_stripConcSuffix _ _ h1
  have h3 : '_' ∈ underscoresToSpaces raw.data := by
    rcases hf : findYear none (underscoresToSpaces raw.data) with - | y0
    · have : (extractYear ⟨underscoresToSpaces raw.data⟩).1.data =
          underscoresToSpaces raw.data := by
        unfold extractYear
        rw [hf]
      rwa [this] at h2
    · have : (extractYear ⟨underscoresToSpaces raw.data⟩).1.data =
          trimChars (stripTrailingYear (underscoresToSpaces raw.data)) := by
        unfold extractYear
        rw [hf]
      rw [this] at h2
      exact mem_stripTrailingYear _ _ (mem_trimChars _ _ h2)
  exact underscore_notMem_underscoresToSpaces raw.data h3

/-- Underscore replacement fixes an underscore-free list. -/
theorem underscoresToSpaces_of_notMem (l : List Char) (h : '_' ∉ l) :
    underscoresToSpaces l = l := by
  unfold underscoresToSpaces
  have hcong : ∀ x ∈ l, (if x = '_' then ' ' else x) = id x := by
    intro x hx
    rw [if_neg]
    · rfl
    · intro hcon
      exact h (hcon ▸ hx)
  rw [List.map_congr_left hcong, List.map_id]

/-- **C9 (amended).**  When the normalized name contains no extractable
year token and does not end in a concentration-type suffix, re-applying
the normalization to the normalized name returns it unchanged with no
year.  (By the counterexample, both conditions are necessary: a name
still ending in a suffix is shortened again, and an extracted year is
never re-extracted.) -/
theorem processPerfumeName_idem (raw n : String) (y : Option ℕ)
    (h : processPerfumeName raw = (n, y))
    (hyear : findYear none n.data = none)
    (hsuffix : stripConcSuffix n.data = n.data) :
    processPerfumeName n = (n, none) := by
  have hn : n.data = titleCaseWords (trimChars (stripConcSuffix
      (extractYear ⟨underscoresToSpaces raw.data⟩).1.data)) := by
    rw [show n = (processPerfumeName raw).1 from by rw [h]]
    rfl
  have hund : '_' ∉ n.data := by
    have hu := underscore_notMem_processed raw
    rw [h] at hu
    exact hu
  have hmap : (⟨underscoresToSpaces n.data⟩ : String) = n := by
    rw [underscoresToSpaces_of_notMem n.data hund]
  have hEY : extractYear ⟨underscoresToSpaces n.data⟩ = (n, none) := by
    rw [hmap]
    unfold extractYear
    rw [hyear]
  have hclean : cleanPerfumeName n = n := by
    unfold cleanPerfumeName
    rw [hsuffix]
    have htrim : trimChars n.data = n.data := by
      rw [hn]
      exact trimChars_titleCase_trim _
    rw [htrim]
    conv_rhs => rw [show n = (⟨n.data⟩ : String) from rfl]
    rw [hn, titleCaseWords_idem]
  show (cleanPerfumeName (extractYear ⟨underscoresToSpaces n.data⟩).1,
    (extractYear ⟨underscoresToSpaces n.data⟩).2) = (n, none)
  rw [hEY]
  simp [hclean]

/-- Witness for `processPerfumeName_idem` at an already-normalized
name. -/
theorem processPerfumeName_idem_witness : processPerfumeName "Aventus" = ("Aventus", none) :=
  processPerfumeName_idem "Aventus" "Aventus" none (by decide) (by decide) (by decide)

/-- **C9, counterexample.**  Normalization is not idempotent: a year
extracted by the first application is absent from the second
application's result, and a normalized name that still ends in a
concentration suffix loses a further suffix on the second
application. -/
theorem processPerfumeName_not_idempotent :
    processPerfumeName "Aventus_2010" = ("Aventus", some 2010) ∧
    processPerfumeName "Aventus" = ("Aventus", none) ∧
    (some 2010 : Option ℕ) ≠ none ∧
    processPerfumeName "A_Parfum_Parfum" = ("A Parfum", none) ∧
    processPerfumeName "A Parfum" = ("A", none) ∧
    ("A" : String) ≠ "A Parfum" := by
  refine ⟨by decide, by decide, by decide, by decide, by decide, by decide⟩
